import Mathlib

/-!
Shallow embedding of the orchestration core of the repository
(`src/core/orchestrator/`): the agent registry (`agent_registry.py`),
the task router (`task_router.py`), the message bus (`message_bus.py`)
and the orchestrator's `agent.failed` handler (`orchestrator.py`).

Python dictionaries are modelled as association lists (insertion-ordered,
like CPython dicts), Python sets of ids as duplicate-free lists, floats as
rationals, and `datetime` values as rational timestamps supplied by the
caller.  Each Lean definition is translated line by line from the Python
function of the same name.
-/

namespace Orch

/-! ### Association-list primitives (model of Python dict) -/

/-- `m[k]` lookup: first entry with the given key. -/
def alookup [DecidableEq α] : List (α × β) → α → Option β
  | [], _ => none
  | (k, v) :: rest, k' => if k = k' then some v else alookup rest k'

/-- `m[k] = v`: replace the entry in place if the key is present
(CPython keeps the original position), else append. -/
def aset [DecidableEq α] : List (α × β) → α → β → List (α × β)
  | [], k, v => [(k, v)]
  | (k', v') :: rest, k, v =>
      if k' = k then (k, v) :: rest else (k', v') :: aset rest k v

/-- `del m[k]`: drop the first entry with the given key. -/
def aerase [DecidableEq α] : List (α × β) → α → List (α × β)
  | [], _ => []
  | (k', v') :: rest, k => if k' = k then rest else (k', v') :: aerase rest k

/-- `list.remove(x)`: drop the first occurrence of `x`. -/
def eraseFirst [DecidableEq α] : List α → α → List α
  | [], _ => []
  | x :: rest, y => if x = y then rest else x :: eraseFirst rest y

/-- `m.get(k, [])`, and also `defaultdict` read access. -/
def agetD [DecidableEq α] (m : List (α × List β)) (k : α) : List β :=
  (alookup m k).getD []

/-- The key list of an association list. -/
def keys (m : List (α × β)) : List α := m.map Prod.fst

/-- `set.add`: insert if absent (position immaterial for set semantics). -/
def setAdd [DecidableEq α] (s : List α) (x : α) : List α :=
  if x ∈ s then s else s ++ [x]

/-- `set.discard`: remove every copy (a set holds at most one). -/
def setDiscard [DecidableEq α] (s : List α) (x : α) : List α :=
  s.filter (fun y => y ≠ x)

/-- `defaultdict(set)` write access: `index[k].add(x)`. -/
def indexAdd [DecidableEq α] (m : List (α × List String)) (k : α) (x : String) :
    List (α × List String) :=
  aset m k (setAdd (agetD m k) x)

/-- `defaultdict(set)` write access: `index[k].discard(x)`. -/
def indexDiscard [DecidableEq α] (m : List (α × List String)) (k : α) (x : String) :
    List (α × List String) :=
  aset m k (setDiscard (agetD m k) x)

/-! ### Agent registry data model (`agent_registry.py`) -/

/-- `AgentStatus` enum. -/
inductive AgentStatus
  | active | idle | busy | error | offline | maintenance
deriving DecidableEq, Repr

/-- `AgentCategory` enum. -/
inductive AgentCategory
  | emergency | clinical | quantum | research | operational | analytics
deriving DecidableEq, Repr

/-- `AgentInfo` dataclass.  Fields not consulted by any verified operation
(`version`, `registered_at`, `last_heartbeat`, `cpu_percent`, `memory_mb`,
`metadata`) are omitted; all defaults follow the source. -/
structure AgentInfo where
  agent_id : String
  name : String
  category : AgentCategory
  capabilities : List String
  status : AgentStatus := .offline
  tasks_completed : Nat := 0
  tasks_failed : Nat := 0
  avg_response_time_ms : ℚ := 0
  success_rate : ℚ := 100
  last_task_at : Option ℚ := none
  active_tasks : Int := 0
  max_concurrent_tasks : Int := 5
  priority_level : Int := 5
deriving DecidableEq, Repr

/-- The `**updates` keyword arguments accepted by `update_agent`.
`update_agent` sets any existing attribute; this record covers exactly the
fields that the repository's call sites (task_router.py, orchestrator.py,
register_agent's `**kwargs`) ever pass.  None of those call sites passes
`capabilities` or `category`. -/
structure AgentUpdates where
  status : Option AgentStatus := none
  active_tasks : Option Int := none
  tasks_completed : Option Nat := none
  tasks_failed : Option Nat := none
  success_rate : Option ℚ := none
  avg_response_time_ms : Option ℚ := none
  last_task_at : Option ℚ := none
  priority_level : Option Int := none
  max_concurrent_tasks : Option Int := none
deriving DecidableEq, Repr

/-- The `setattr` loop of `update_agent`: overwrite each supplied field. -/
def applyUpdates (a : AgentInfo) (u : AgentUpdates) : AgentInfo :=
  { a with
    status := u.status.getD a.status
    active_tasks := u.active_tasks.getD a.active_tasks
    tasks_completed := u.tasks_completed.getD a.tasks_completed
    tasks_failed := u.tasks_failed.getD a.tasks_failed
    success_rate := u.success_rate.getD a.success_rate
    avg_response_time_ms := u.avg_response_time_ms.getD a.avg_response_time_ms
    last_task_at := match u.last_task_at with
      | some x => some x
      | none => a.last_task_at
    priority_level := u.priority_level.getD a.priority_level
    max_concurrent_tasks := u.max_concurrent_tasks.getD a.max_concurrent_tasks }

/-- `AgentRegistry.__init__` state: the `agents` dict and the two
`defaultdict(set)` indices. -/
structure AgentRegistry where
  agents : List (String × AgentInfo) := []
  capabilities_index : List (String × List String) := []
  category_index : List (AgentCategory × List String) := []
deriving DecidableEq, Repr

/-- `AgentRegistry.update_agent`: if the id is unknown return `None`,
otherwise overwrite the supplied fields and return the updated record. -/
def update_agent (r : AgentRegistry) (agent_id : String) (u : AgentUpdates) :
    AgentRegistry × Option AgentInfo :=
  match alookup r.agents agent_id with
  | none => (r, none)
  | some a =>
      let a' := applyUpdates a u
      ({ r with agents := aset r.agents agent_id a' }, some a')

/-- `AgentRegistry.register_agent`.  If the id is already registered the
source delegates to `update_agent(agent_id, status=ACTIVE, **kwargs)`;
otherwise it builds a fresh ACTIVE record (the `**kwargs` are applied to
the dataclass constructor) and adds the id to the capability index entry
of every declared capability and to its category index entry. -/
def register_agent (r : AgentRegistry) (agent_id nm : String)
    (category : AgentCategory) (capabilities : List String) (u : AgentUpdates) :
    AgentRegistry × Option AgentInfo :=
  match alookup r.agents agent_id with
  | some _ => update_agent r agent_id { u with status := some .active }
  | none =>
      let a : AgentInfo :=
        applyUpdates
          { agent_id := agent_id, name := nm, category := category
            capabilities := capabilities, status := .active } u
      let r1 := { r with agents := aset r.agents agent_id a }
      let r2 := { r1 with
        capabilities_index :=
          capabilities.foldl (fun m c => indexAdd m c agent_id) r1.capabilities_index }
      let r3 := { r2 with
        category_index := indexAdd r2.category_index category agent_id }
      (r3, some a)

/-- `AgentRegistry.deregister_agent`: discard the id from the capability
entry of each declared capability and from its category entry, delete the
record, and report success. -/
def deregister_agent (r : AgentRegistry) (agent_id : String) :
    AgentRegistry × Bool :=
  match alookup r.agents agent_id with
  | none => (r, false)
  | some a =>
      let ci := a.capabilities.foldl (fun m c => indexDiscard m c agent_id)
        r.capabilities_index
      let gi := indexDiscard r.category_index a.category agent_id
      ({ agents := aerase r.agents agent_id
         capabilities_index := ci
         category_index := gi }, true)

/-- `AgentRegistry.find_agents_by_capability`: the ids indexed under the
capability, restricted to ACTIVE/IDLE agents. -/
def find_agents_by_capability (r : AgentRegistry) (capability : String) :
    List AgentInfo :=
  (agetD r.capabilities_index capability).filterMap fun aid =>
    match alookup r.agents aid with
    | some a => if a.status = .active ∨ a.status = .idle then some a else none
    | none => none

/-- `AgentRegistry.get_all_agents`: all records in insertion order;
with `active_only=True`, only ACTIVE, IDLE or BUSY ones. -/
def get_all_agents (r : AgentRegistry) (active_only : Bool) : List AgentInfo :=
  let agents := r.agents.map Prod.snd
  if active_only then
    agents.filter fun a =>
      a.status = .active ∨ a.status = .idle ∨ a.status = .busy
  else agents

/-! ### Task router data model (`task_router.py`) -/

/-- `TaskStatus` enum. -/
inductive TaskStatus
  | pending | assigned | in_progress | completed | failed | cancelled
deriving DecidableEq, Repr

/-- An opaque Python `Dict[str, Any]` payload, modelled as string pairs
(enough to distinguish payloads and to express `{"error": error}`). -/
structure PyDict where
  entries : List (String × String)
deriving DecidableEq, Repr

/-- `Task` dataclass.  `priority` is the enum's `.value` (1 = CRITICAL …
5 = LOW); `started_at`, `patient_id`, `encounter_id`, `context` are never
consulted by the verified operations and are omitted. -/
structure Task where
  task_id : String
  task_type : String
  priority : Nat
  required_capabilities : List String
  data : PyDict
  assigned_agent_id : Option String := none
  status : TaskStatus := .pending
  created_at : ℚ := 0
  assigned_at : Option ℚ := none
  completed_at : Option ℚ := none
  result : Option PyDict := none
  error : Option String := none
deriving DecidableEq, Repr

/-- Combined mutable state of the router together with its registry
(`TaskRouter.__init__`): the `tasks` dict, the priority queue (as the
multiset of its `(priority.value, task_id)` keys; the third tuple
component is the task object itself, recovered from `tasks`), and the
`agent_tasks` dict. -/
structure SysState where
  reg : AgentRegistry := {}
  tasks : List (String × Task) := []
  task_queue : List (Nat × String) := []
  agent_tasks : List (String × List String) := []
deriving DecidableEq, Repr

/-- Python string `<`: lexicographic comparison by Unicode code point
(the comparison the heap's tuple ordering performs on `task_id`; it
coincides with Lean's `String.lt`). -/
def strLtB : List Char → List Char → Bool
  | [], [] => false
  | [], _ :: _ => true
  | _ :: _, [] => false
  | c :: cs, d :: ds =>
      if c.val < d.val then true
      else if d.val < c.val then false
      else strLtB cs ds

/-- Heap ordering of queue entries: Python compares the tuples
`(priority.value, task_id, task)` lexicographically with `<`; distinct
queued tasks never tie on both priority and id, so the task component is
irrelevant. -/
def entryLT (e1 e2 : Nat × String) : Bool :=
  decide (e1.1 < e2.1) || (decide (e1.1 = e2.1) && strLtB e1.2.data e2.2.data)

/-- `PriorityQueue.get_nowait`: remove and return the least entry. -/
def popMin : List (Nat × String) → Option ((Nat × String) × List (Nat × String))
  | [] => none
  | e :: es =>
      let m := es.foldl (fun acc x => if entryLT x acc then x else acc) e
      some (m, eraseFirst (e :: es) m)

/-- Python `min(agents, key=lambda a: a.active_tasks)`: the first
minimum. -/
def minByActive : List AgentInfo → Option AgentInfo
  | [] => none
  | a :: as =>
      some (as.foldl (fun acc x =>
        if x.active_tasks < acc.active_tasks then x else acc) a)

/-- The availability filter at the end of `_find_capable_agents`. -/
def isAvailable (a : AgentInfo) : Bool :=
  decide ((a.status = .active ∨ a.status = .idle) ∧
    a.active_tasks < a.max_concurrent_tasks)

/-- `TaskRouter._find_capable_agents`.  With no required capabilities the
source returns `get_all_agents(active_only=True)` directly (skipping the
availability filter).  Otherwise it folds over the required capabilities,
replacing the accumulator whenever it is empty (`if not capable_agents`)
and intersecting it with the capability's agent list otherwise, then
filters by availability. -/
def find_capable_agents (r : AgentRegistry) (t : Task) : List AgentInfo :=
  if t.required_capabilities = [] then get_all_agents r true
  else
    let capable := t.required_capabilities.foldl
      (fun acc c =>
        let ags := find_agents_by_capability r c
        if acc = [] then ags else acc.filter (fun a => a ∈ ags)) []
    capable.filter isAvailable

/-- `TaskRouter._route_least_loaded`, the default routing strategy. -/
def route_least_loaded (r : AgentRegistry) (t : Task) : Option AgentInfo :=
  minByActive (find_capable_agents r t)

/-- `TaskRouter._assign_task_to_agent`: mark the task ASSIGNED to the
agent, record it in `agent_tasks`, and set the agent BUSY with
`active_tasks` incremented. -/
def assign_task_to_agent (s : SysState) (tid : String) (g : AgentInfo)
    (now : ℚ) : SysState :=
  let tasks' := match alookup s.tasks tid with
    | some t => aset s.tasks tid
        { t with assigned_agent_id := some g.agent_id
                 assigned_at := some now
                 status := .assigned }
    | none => s.tasks
  let at' := aset s.agent_tasks g.agent_id (agetD s.agent_tasks g.agent_id ++ [tid])
  let reg' := (update_agent s.reg g.agent_id
    { status := some .busy, active_tasks := some (g.active_tasks + 1) }).1
  { s with tasks := tasks', agent_tasks := at', reg := reg' }

/-- The `while not self.task_queue.empty()` loop of
`assign_pending_tasks` (default `least_loaded` strategy, the only one the
orchestrator uses).  Each iteration pops the least entry; a task that is
no longer PENDING is skipped; if no agent is found the entry is put back
and the loop breaks.  Every iteration consumes a queue entry or breaks,
so the queue length at entry bounds the iteration count. -/
def assignLoop (now : ℚ) : SysState → Nat → SysState
  | s, 0 => s
  | s, fuel + 1 =>
      match popMin s.task_queue with
      | none => s
      | some ((p, tid), rest) =>
          match alookup s.tasks tid with
          | none => assignLoop now { s with task_queue := rest } fuel
          | some t =>
              if t.status ≠ .pending then
                assignLoop now { s with task_queue := rest } fuel
              else
                match route_least_loaded s.reg t with
                | some g =>
                    assignLoop now
                      (assign_task_to_agent { s with task_queue := rest } tid g now)
                      fuel
                | none => { s with task_queue := rest ++ [(p, tid)] }

/-- `TaskRouter.assign_pending_tasks` (default strategy). -/
def assign_pending_tasks (s : SysState) (now : ℚ) : SysState :=
  assignLoop now s s.task_queue.length

/-- `TaskRouter.submit_task`: build the task, store it, enqueue
`(priority.value, task_id)`, then immediately try to assign. -/
def submit_task (s : SysState) (tid ttype : String) (prio : Nat)
    (req_capabilities : List String) (data : PyDict) (now : ℚ) : SysState :=
  let t : Task :=
    { task_id := tid, task_type := ttype, priority := prio
      required_capabilities := req_capabilities, data := data, created_at := now }
  let s1 := { s with tasks := aset s.tasks tid t
                     task_queue := s.task_queue ++ [(prio, tid)] }
  assign_pending_tasks s1 now

/-- The agent-metrics `updates` dict built inside `complete_task` when
the task has an `assigned_at` timestamp. -/
def completionUpdates (agent : AgentInfo) (success : Bool)
    (response_time_ms now : ℚ) : AgentUpdates :=
  { active_tasks := some (max 0 (agent.active_tasks - 1))
    last_task_at := some now
    tasks_completed :=
      if success then some (agent.tasks_completed + 1) else none
    tasks_failed :=
      if success then none else some (agent.tasks_failed + 1)
    success_rate := some (if success then
        ((agent.tasks_completed : ℚ) * agent.success_rate + 100) /
          ((agent.tasks_completed : ℚ) + 1)
      else
        ((agent.tasks_completed : ℚ) * agent.success_rate) /
          ((agent.tasks_completed : ℚ) + (agent.tasks_failed : ℚ) + 1))
    avg_response_time_ms := some (if agent.avg_response_time_ms > 0 then
        (agent.avg_response_time_ms * (agent.tasks_completed : ℚ) +
            response_time_ms) / ((agent.tasks_completed : ℚ) + 1)
      else response_time_ms) }

/-- The tail of `complete_task`:
`if task.assigned_agent_id in self.agent_tasks: agent_tasks[aid].remove(task_id)`.
`in` checks only that the key exists; `list.remove` raises `ValueError`
when the id is not in the list.  The boolean records whether the call
raised. -/
def removeFromAgentTasks (s : SysState) (aid tid : String) : SysState × Bool :=
  match alookup s.agent_tasks aid with
  | none => (s, false)
  | some l =>
      if tid ∈ l then
        ({ s with agent_tasks := aset s.agent_tasks aid (eraseFirst l tid) }, false)
      else (s, true)

/-- The `if task.assigned_agent_id:` block of `complete_task`, applied to
the state `s1` in which the task record has already been mutated: agent
metrics are updated only when the task had an assigned agent that is
still registered and an `assigned_at` timestamp; the idle check then
reads `agent.active_tasks` from the same (already mutated) record; the
trailing `agent_tasks` removal may raise. -/
def completeAgentPhase (s1 : SysState) (t : Task) (tid : String)
    (success : Bool) (now : ℚ) : SysState × Bool :=
  match t.assigned_agent_id with
  | none => (s1, false)
  | some aid =>
      match alookup s1.reg.agents aid with
      | none => removeFromAgentTasks s1 aid tid
      | some agent =>
          let s2 := match t.assigned_at with
            | none => s1
            | some assigned =>
                let rt := (now - assigned) * 1000
                { s1 with
                  reg := (update_agent s1.reg aid
                    (completionUpdates agent success rt now)).1 }
          let s3 := match alookup s2.reg.agents aid with
            | some ag2 =>
                if ag2.active_tasks ≤ 1 then
                  { s2 with
                    reg := (update_agent s2.reg aid { status := some .idle }).1 }
                else s2
            | none => s2
          removeFromAgentTasks s3 aid tid

/-- `TaskRouter.complete_task`.  The task's `completed_at`, `result` and
`status` are set unconditionally (no check of the current status), then
the agent phase runs.  The boolean is `true` when the trailing
`list.remove` raised `ValueError`; all preceding mutations persist in
that case. -/
def complete_task (s : SysState) (tid : String) (result : PyDict)
    (success : Bool) (now : ℚ) : SysState × Bool :=
  match alookup s.tasks tid with
  | none => (s, false)
  | some t =>
      let t' := { t with completed_at := some now
                         result := some result
                         status := if success then .completed else .failed }
      completeAgentPhase { s with tasks := aset s.tasks tid t' } t tid success now

/-- `TaskRouter.fail_task`: set the `error` field, then delegate to
`complete_task` with result `{"error": error}` and `success=False`. -/
def fail_task (s : SysState) (tid err : String) (now : ℚ) : SysState × Bool :=
  match alookup s.tasks tid with
  | none => (s, false)
  | some t =>
      let s1 := { s with tasks := aset s.tasks tid { t with error := some err } }
      complete_task s1 tid ⟨[("error", err)]⟩ false now

/-- The loop body of `_on_agent_failed`: a task currently ASSIGNED or
IN_PROGRESS is reset to PENDING with a cleared `assigned_agent_id` and
its `(priority, id)` entry is put back on the queue. -/
def requeueStep (acc : SysState) (tid : String) : SysState :=
  match alookup acc.tasks tid with
  | none => acc
  | some t =>
      if t.status = .assigned ∨ t.status = .in_progress then
        { acc with
          tasks := aset acc.tasks tid
            { t with status := .pending, assigned_agent_id := none }
          task_queue := acc.task_queue ++ [(t.priority, tid)] }
      else acc

/-- `TaskOrchestrator._on_agent_failed`.  Marks the agent ERROR (guarded
by Python truthiness of the id), then walks `get_agent_tasks(agent_id)`
— the `agent_tasks` tracking list, which the requeue itself never prunes
— applying `requeueStep` to every listed task. -/
def on_agent_failed (s : SysState) (aid : String) : SysState :=
  let s1 := if aid ≠ "" then
      { s with reg := (update_agent s.reg aid { status := some .error }).1 }
    else s
  let tids := (agetD s1.agent_tasks aid).filter
    (fun tid => (alookup s1.tasks tid).isSome)
  tids.foldl requeueStep s1

/-! ### Operation alphabet and reachable states

The operations the running system performs on the shared state: the
registration calls made by the orchestrator and the inbound interface
(whose `**kwargs` carry at most `priority_level` and
`max_concurrent_tasks`), deregistration, task submission, the assignment
tick, the completion/failure callbacks, and the `agent.failed` handler. -/

/-- `register_agent` keyword arguments used by the repository's callers. -/
structure RegisterKwargs where
  priority_level : Option Int := none
  max_concurrent_tasks : Option Int := none
deriving DecidableEq, Repr

/-- View of the kwargs as an `update_agent` field set. -/
def RegisterKwargs.toUpdates (k : RegisterKwargs) : AgentUpdates :=
  { priority_level := k.priority_level
    max_concurrent_tasks := k.max_concurrent_tasks }

/-- One operation of the orchestration core. -/
inductive Op
  | register (aid nm : String) (cat : AgentCategory) (caps : List String)
      (kw : RegisterKwargs)
  | deregister (aid : String)
  | submit (tid ttype : String) (prio : Nat) (caps : List String)
      (data : PyDict) (now : ℚ)
  | assignTick (now : ℚ)
  | complete (tid : String) (res : PyDict) (success : Bool) (now : ℚ)
  | fail (tid : String) (err : String) (now : ℚ)
  | agentFailed (aid : String)
deriving Repr

/-- Apply one operation to the shared state. -/
def applyOp (s : SysState) : Op → SysState
  | .register aid nm cat caps kw =>
      { s with reg := (register_agent s.reg aid nm cat caps kw.toUpdates).1 }
  | .deregister aid => { s with reg := (deregister_agent s.reg aid).1 }
  | .submit tid ttype prio caps data now =>
      submit_task s tid ttype prio caps data now
  | .assignTick now => assign_pending_tasks s now
  | .complete tid res success now => (complete_task s tid res success now).1
  | .fail tid err now => (fail_task s tid err now).1
  | .agentFailed aid => on_agent_failed s aid

/-- Run a sequence of operations from the freshly initialised state. -/
def runOps (ops : List Op) : SysState := ops.foldl applyOp {}

/-- A state the system can actually be in. -/
def Reachable (s : SysState) : Prop := ∃ ops, s = runOps ops

/-! ### Message bus (`message_bus.py`) -/

/-- `Message` dataclass (timestamp and metadata omitted; no verified
property consults them). -/
structure Message where
  message_id : String
  topic : String
  payload : PyDict
  sender_id : Option String := none
deriving DecidableEq, Repr

/-- A subscriber callback: the returned value records whether the call
raised (`Except.error`) or returned (`Except.ok`); `publish` catches
either way. -/
def Callback : Type := Message → Except String Unit

/-- `MessageBus.__init__` state. -/
structure MessageBus where
  subscribers : List (String × List Callback) := []
  message_history : List Message := []
  max_history : Nat := 1000
  message_counter : Nat := 0

/-- `MessageBus.subscribe`: append the callback to the topic's list. -/
def subscribe (b : MessageBus) (topic : String) (cb : Callback) : MessageBus :=
  { b with
    subscribers := aset b.subscribers topic (agetD b.subscribers topic ++ [cb]) }

/-- `MessageBus.publish`: bump the counter, build the message, append it
to the (bounded) history, then call every subscriber of the topic in list
order inside a `try/except` that logs and continues.  The result carries
the new bus state, the returned message id, and the call trace — one
`(callback, argument, outcome)` triple per invocation. -/
def publish (b : MessageBus) (topic : String) (payload : PyDict)
    (sender_id : Option String) :
    MessageBus × String × List (Callback × Message × Except String Unit) :=
  let counter := b.message_counter + 1
  let mid := "msg_" ++ toString counter
  let msg : Message :=
    { message_id := mid, topic := topic, payload := payload
      sender_id := sender_id }
  let hist0 := b.message_history ++ [msg]
  let hist := if b.max_history < hist0.length then hist0.drop 1 else hist0
  let subs := agetD b.subscribers topic
  let calls := subs.map fun cb => (cb, msg, cb msg)
  ({ b with message_history := hist, message_counter := counter }, mid, calls)

/-! ### Named values used in concrete scenarios and claim statements -/

/-- The message object a `publish` call constructs. -/
def publishedMessage (b : MessageBus) (topic : String) (payload : PyDict)
    (sender_id : Option String) : Message :=
  { message_id := "msg_" ++ toString (b.message_counter + 1)
    topic := topic, payload := payload, sender_id := sender_id }

/-- The success-rate recomputation as the specification words it: a
cumulative weighted average whose old weight is `old_total = completed +
failed`, the number of previously recorded completions and failures.
(Stated from the spec, for comparison with the code's
`completionUpdates`.) -/
def claimedSuccessRate (completed failed : Nat) (rate : ℚ)
    (success : Bool) : ℚ :=
  (((completed : ℚ) + (failed : ℚ)) * rate + (if success then 100 else 0)) /
    (((completed : ℚ) + (failed : ℚ)) + 1)

/-- An agent record with one recorded completion, one recorded failure
and success rate 50. -/
def agentOneOne : AgentInfo :=
  { agent_id := "g", name := "G", category := .clinical
    capabilities := ["c"], status := .active
    tasks_completed := 1, tasks_failed := 1, success_rate := 50 }

/-- A registry holding a single ACTIVE agent `x` whose only capability
is `c2`. -/
def regOnlyC2 : AgentRegistry :=
  (register_agent {} "x" "X" .clinical ["c2"] {}).1

/-- A task requiring both `c1` and `c2`. -/
def taskNeedsBoth : Task :=
  { task_id := "t", task_type := "w", priority := 3
    required_capabilities := ["c1", "c2"], data := ⟨[]⟩ }

/-- A registry holding a single agent `y` that has been set BUSY. -/
def regBusy : AgentRegistry :=
  (update_agent (register_agent {} "y" "Y" .clinical ["c"] {}).1 "y"
    { status := some .busy }).1

/-- A task with no required capabilities. -/
def taskNoCaps : Task :=
  { task_id := "t2", task_type := "w", priority := 3
    required_capabilities := [], data := ⟨[]⟩ }

/-- Two equal-priority tasks submitted while no agent exists — `i2`
first, `i1` second — then an agent with the needed capability registers
and an assignment tick runs. -/
def tieScenario (i1 i2 : String) (p : Nat) : List Op :=
  [ .submit i2 "t" p ["c"] ⟨[]⟩ 0,
    .submit i1 "t" p ["c"] ⟨[]⟩ 1,
    .register "g" "G" .clinical ["c"] {},
    .assignTick 2 ]

/-- The tie scenario with task `"b"` submitted before task `"a"`. -/
def tieOps : List Op := tieScenario "a" "b" 3

/-- The task record created by the second submission of the tie
scenario. -/
def T1 (i1 : String) (p : Nat) : Task :=
  { task_id := i1, task_type := "t", priority := p
    required_capabilities := ["c"], data := ⟨[]⟩, created_at := 1 }

/-- The task record created by the first submission of the tie
scenario. -/
def T2 (i2 : String) (p : Nat) : Task :=
  { task_id := i2, task_type := "t", priority := p
    required_capabilities := ["c"], data := ⟨[]⟩, created_at := 0 }

/-- `T1` after being assigned to agent `g` at time 2. -/
def T1A (i1 : String) (p : Nat) : Task :=
  { T1 i1 p with assigned_agent_id := some "g", assigned_at := some 2
                 status := .assigned }

/-- The agent record of `g` as freshly registered in the tie scenario. -/
def G0 : AgentInfo :=
  { agent_id := "g", name := "G", category := .clinical
    capabilities := ["c"], status := .active }

/-- The registry of the tie scenario after `g` registers. -/
def regG : AgentRegistry :=
  (register_agent {} "g" "G" .clinical ["c"] ({} : AgentUpdates)).1

/-- `regG` after `g` is assigned one task. -/
def regGBusy : AgentRegistry :=
  (update_agent regG "g" { status := some .busy, active_tasks := some 1 }).1

/-- Two capable agents; a task is assigned to the first, the first agent
fails (requeueing the task), and the next tick reassigns it to the
second agent.  The task id remains in the failed agent's
`agent_tasks` tracking list. -/
def failoverOps : List Op :=
  [ .register "a1" "A" .clinical ["c"] {},
    .register "b1" "B" .clinical ["c"] {},
    .submit "t" "w" 3 ["c"] ⟨[]⟩ 0,
    .agentFailed "a1",
    .assignTick 1 ]

/-- An agent, a task assigned to it, and a `fail_task` callback. -/
def failScenarioOps : List Op :=
  [ .register "g" "G" .clinical ["c"] {},
    .submit "t" "w" 3 ["c"] ⟨[]⟩ 0,
    .fail "t" "boom" 1 ]

/-- A single pending task in an otherwise empty router (its queue entry
present), as left by submitting with no agents registered. -/
def onePendingOps : List Op :=
  [ .submit "t" "w" 3 ["c"] ⟨[]⟩ 0 ]

/-- The task record created by `submit_task "t" "w" 3 ["c"] {} 0` (all
other fields at their dataclass defaults). -/
def pendingTaskT : Task :=
  { task_id := "t", task_type := "w", priority := 3
    required_capabilities := ["c"], data := ⟨[]⟩, created_at := 0 }

/-- The agent record created by registering `x` with capability `c2`. -/
def agentX : AgentInfo :=
  { agent_id := "x", name := "X", category := .clinical
    capabilities := ["c2"], status := .active }

/-- The index-consistency property of claim C2 at a state: every
registered agent's id is in the capability index entry of each declared
capability and in exactly its own category index entry, and a successful
`deregister_agent` leaves the id in no map and no index entry. -/
def IndexInvariant (s : SysState) : Prop :=
  (∀ p ∈ s.reg.agents,
    (∀ c ∈ p.2.capabilities, p.1 ∈ agetD s.reg.capabilities_index c) ∧
    p.1 ∈ agetD s.reg.category_index p.2.category ∧
    (∀ cat, p.1 ∈ agetD s.reg.category_index cat → cat = p.2.category)) ∧
  (∀ aid, (deregister_agent s.reg aid).2 = true →
    aid ∉ keys (deregister_agent s.reg aid).1.agents ∧
    (∀ c, aid ∉ agetD (deregister_agent s.reg aid).1.capabilities_index c) ∧
    (∀ cat, aid ∉ agetD (deregister_agent s.reg aid).1.category_index cat))

/-- The result/error discipline of claim C7 at a state: a task that has
not reached a terminal status carries neither a result nor an error. -/
def ResultErrorInvariant (s : SysState) : Prop :=
  ∀ p ∈ s.tasks, p.2.status ≠ .completed → p.2.status ≠ .failed →
    p.2.status ≠ .cancelled → p.2.result = none ∧ p.2.error = none

/-- The effect of `fail_task` on the task record (claim C7): the error
field and the `{"error": error}` result are both set, alongside the
FAILED status and completion time. -/
def FailTaskPost (s : SysState) : Prop :=
  ∀ (tid err : String) (now : ℚ) (t : Task),
    alookup s.tasks tid = some t →
    alookup (fail_task s tid err now).1.tasks tid =
      some { t with error := some err
                    completed_at := some now
                    result := some ⟨[("error", err)]⟩
                    status := .failed }

/-- The effect of the `agent.failed` handler (claim C1): the agent is
marked ERROR; every task in its `agent_tasks` tracking list that is
currently ASSIGNED or IN_PROGRESS — to it or to any other agent — is
reset to PENDING with a cleared assignee and re-enqueued; tasks outside
the list keep their records, terminal tasks are never reset, and the
tracking list itself is not pruned. -/
def AgentFailedPost (s : SysState) (aid : String) : Prop :=
  (∀ g, alookup s.reg.agents aid = some g →
    alookup (on_agent_failed s aid).reg.agents aid =
      some { g with status := .error }) ∧
  (∀ tid, tid ∉ agetD s.agent_tasks aid →
    alookup (on_agent_failed s aid).tasks tid = alookup s.tasks tid) ∧
  (∀ tid t, tid ∈ agetD s.agent_tasks aid →
    alookup s.tasks tid = some t →
    (t.status = .assigned ∨ t.status = .in_progress) →
    alookup (on_agent_failed s aid).tasks tid =
      some { t with status := .pending, assigned_agent_id := none } ∧
    (t.priority, tid) ∈ (on_agent_failed s aid).task_queue) ∧
  (∀ tid t, alookup s.tasks tid = some t →
    (t.status = .completed ∨ t.status = .failed) →
    alookup (on_agent_failed s aid).tasks tid = some t) ∧
  (on_agent_failed s aid).agent_tasks = s.agent_tasks

/-! ### Lemmas about the association-list primitives -/

section AListLemmas

variable {α : Type} {β : Type} [DecidableEq α]

theorem alookup_eq_none_iff {m : List (α × β)} {k : α} :
    alookup m k = none ↔ k ∉ keys m := by
  induction m with
  | nil => simp [alookup, keys]
  | cons p rest ih =>
      obtain ⟨k', v'⟩ := p
      simp only [keys, List.map_cons, List.mem_cons]
      by_cases h : k' = k
      · subst h
        simp [alookup]
      · simp only [alookup, if_neg h]
        rw [ih]
        constructor
        · intro hk hc
          rcases hc with rfl | hc
          · exact h rfl
          · exact hk hc
        · intro hk hc
          exact hk (Or.inr hc)

theorem alookup_mem {m : List (α × β)} {k : α} {v : β}
    (h : alookup m k = some v) : (k, v) ∈ m := by
  induction m with
  | nil => simp [alookup] at h
  | cons p rest ih =>
      obtain ⟨k', v'⟩ := p
      by_cases hk : k' = k
      · subst hk
        have hv : v' = v := by simpa [alookup] using h
        subst hv
        exact List.mem_cons_self _ _
      · simp only [alookup, if_neg hk] at h
        exact List.mem_cons_of_mem _ (ih h)

theorem mem_keys_of_alookup {m : List (α × β)} {k : α} {v : β}
    (h : alookup m k = some v) : k ∈ keys m :=
  List.mem_map.mpr ⟨(k, v), alookup_mem h, rfl⟩

theorem alookup_eq_some_of_mem {m : List (α × β)} {k : α} {v : β}
    (hnd : (keys m).Nodup) (hm : (k, v) ∈ m) : alookup m k = some v := by
  induction m with
  | nil => simp at hm
  | cons p rest ih =>
      obtain ⟨k', v'⟩ := p
      simp only [keys, List.map_cons, List.nodup_cons] at hnd
      rcases List.mem_cons.mp hm with h | h
      · have h1 : k' = k ∧ v' = v := by simpa [Prod.ext_iff, eq_comm] using h
        obtain ⟨rfl, rfl⟩ := h1
        simp [alookup]
      · have hk : ¬ k' = k := by
          intro he
          subst he
          exact hnd.1 (List.mem_map.mpr ⟨(k', v), h, rfl⟩)
        simp only [alookup, if_neg hk]
        exact ih hnd.2 h

theorem alookup_aset_self (m : List (α × β)) (k : α) (v : β) :
    alookup (aset m k v) k = some v := by
  induction m with
  | nil => simp [aset, alookup]
  | cons p rest ih =>
      obtain ⟨k', v'⟩ := p
      by_cases h : k' = k
      · simp [aset, h, alookup]
      · simp [aset, h, alookup, ih]

theorem alookup_aset_ne (m : List (α × β)) {k k' : α} (v : β) (h : k' ≠ k) :
    alookup (aset m k v) k' = alookup m k' := by
  induction m with
  | nil =>
      simp only [aset, alookup]
      rw [if_neg (fun he => h he.symm)]
  | cons p rest ih =>
      obtain ⟨k'', v''⟩ := p
      by_cases hk : k'' = k
      · subst hk
        simp only [aset, if_pos rfl, alookup]
        rw [if_neg (fun he => h he.symm), if_neg (fun he => h he.symm)]
      · simp only [aset, if_neg hk, alookup]
        by_cases hk2 : k'' = k'
        · simp [hk2]
        · simp [hk2, ih]

theorem keys_aset_of_mem {m : List (α × β)} {k : α} (h : k ∈ keys m) (v : β) :
    keys (aset m k v) = keys m := by
  induction m with
  | nil => simp [keys] at h
  | cons p rest ih =>
      obtain ⟨k', v'⟩ := p
      by_cases hk : k' = k
      · subst hk
        simp [aset, keys]
      · simp only [keys, List.map_cons, List.mem_cons] at h
        rcases h with h | h
        · exact absurd h.symm hk
        · simp only [aset, if_neg hk, keys, List.map_cons]
          rw [show List.map Prod.fst (aset rest k v) = keys (aset rest k v) from rfl,
            ih h]
          rfl

theorem keys_aset_of_not_mem {m : List (α × β)} {k : α} (h : k ∉ keys m) (v : β) :
    keys (aset m k v) = keys m ++ [k] := by
  induction m with
  | nil => simp [aset, keys]
  | cons p rest ih =>
      obtain ⟨k', v'⟩ := p
      simp only [keys, List.map_cons, List.mem_cons] at h
      push_neg at h
      have hk : k' ≠ k := fun h' => h.1 h'.symm
      simp only [aset, if_neg hk, keys, List.map_cons, List.cons_append]
      rw [show List.map Prod.fst (aset rest k v) = keys (aset rest k v) from rfl,
        ih h.2]
      rfl

theorem nodup_keys_aset {m : List (α × β)} (h : (keys m).Nodup) (k : α) (v : β) :
    (keys (aset m k v)).Nodup := by
  by_cases hm : k ∈ keys m
  · rwa [keys_aset_of_mem hm]
  · rw [keys_aset_of_not_mem hm]
    simp [List.nodup_append, h, hm]

theorem mem_aset_iff {m : List (α × β)} (hnd : (keys m).Nodup) {k : α} {v : β}
    {p : α × β} :
    p ∈ aset m k v ↔ p = (k, v) ∨ (p ∈ m ∧ p.1 ≠ k) := by
  induction m with
  | nil =>
      simp only [aset]
      constructor
      · intro hp
        rcases List.mem_cons.mp hp with h | h
        · exact Or.inl h
        · simp at h
      · rintro (rfl | ⟨hp, _⟩)
        · exact List.mem_cons_self _ _
        · simp at hp
  | cons q rest ih =>
      obtain ⟨k', v'⟩ := q
      simp only [keys, List.map_cons, List.nodup_cons] at hnd
      by_cases hk : k' = k
      · subst hk
        simp only [aset, if_pos rfl]
        constructor
        · intro hp
          rcases List.mem_cons.mp hp with h | hp
          · exact Or.inl h
          · refine Or.inr ⟨List.mem_cons_of_mem _ hp, ?_⟩
            intro hke
            exact hnd.1 (List.mem_map.mpr ⟨p, hp, hke⟩)
        · rintro (rfl | ⟨hp, hne⟩)
          · exact List.mem_cons_self _ _
          · rcases List.mem_cons.mp hp with h | hp
            · exact absurd (congrArg Prod.fst h) hne
            · exact List.mem_cons_of_mem _ hp
      · simp only [aset, if_neg hk]
        constructor
        · intro hp
          rcases List.mem_cons.mp hp with h | hp
          · refine Or.inr ⟨List.mem_cons.mpr (Or.inl h), ?_⟩
            rw [congrArg Prod.fst h]
            exact hk
          · rcases (ih hnd.2).mp hp with h | ⟨hp, hne⟩
            · exact Or.inl h
            · exact Or.inr ⟨List.mem_cons_of_mem _ hp, hne⟩
        · rintro (rfl | ⟨hp, hne⟩)
          · exact List.mem_cons_of_mem _ ((ih hnd.2).mpr (Or.inl rfl))
          · rcases List.mem_cons.mp hp with h | hp
            · exact List.mem_cons.mpr (Or.inl h)
            · exact List.mem_cons_of_mem _ ((ih hnd.2).mpr (Or.inr ⟨hp, hne⟩))

theorem aerase_sublist (m : List (α × β)) (k : α) : (aerase m k).Sublist m := by
  induction m with
  | nil => simp [aerase]
  | cons p rest ih =>
      obtain ⟨k', v'⟩ := p
      by_cases h : k' = k
      · simp only [aerase, if_pos h]
        exact List.sublist_cons_self _ _
      · simp only [aerase, if_neg h]
        exact ih.cons₂ _

theorem mem_aerase_sub {m : List (α × β)} {k : α} {p : α × β}
    (h : p ∈ aerase m k) : p ∈ m := (aerase_sublist m k).mem h

theorem nodup_keys_aerase {m : List (α × β)} (h : (keys m).Nodup) (k : α) :
    (keys (aerase m k)).Nodup :=
  ((aerase_sublist m k).map Prod.fst).nodup h

theorem alookup_aerase_self {m : List (α × β)} (hnd : (keys m).Nodup) (k : α) :
    alookup (aerase m k) k = none := by
  induction m with
  | nil => simp [aerase, alookup]
  | cons p rest ih =>
      obtain ⟨k', v'⟩ := p
      simp only [keys, List.map_cons, List.nodup_cons] at hnd
      by_cases h : k' = k
      · subst h
        simp only [aerase, if_pos rfl]
        rw [alookup_eq_none_iff]
        intro hk
        exact hnd.1 hk
      · simp only [aerase, if_neg h, alookup, if_neg h]
        exact ih hnd.2

theorem alookup_aerase_ne (m : List (α × β)) {k k' : α} (h : k' ≠ k) :
    alookup (aerase m k) k' = alookup m k' := by
  induction m with
  | nil => simp [aerase]
  | cons p rest ih =>
      obtain ⟨k'', v''⟩ := p
      by_cases hk : k'' = k
      · subst hk
        have he : aerase ((k'', v'') :: rest) k'' = rest := by simp [aerase]
        rw [he]
        simp only [alookup]
        rw [if_neg (fun he2 => h he2.symm)]
      · simp only [aerase, if_neg hk, alookup]
        by_cases hk2 : k'' = k'
        · simp [hk2]
        · simp [hk2, ih]

theorem mem_keys_aerase_sub {m : List (α × β)} {k k' : α}
    (h : k' ∈ keys (aerase m k)) : k' ∈ keys m :=
  ((aerase_sublist m k).map Prod.fst).mem h

theorem eraseFirst_sublist (l : List α) (x : α) : (eraseFirst l x).Sublist l := by
  induction l with
  | nil => simp [eraseFirst]
  | cons y rest ih =>
      by_cases h : y = x
      · simp only [eraseFirst, if_pos h]
        exact List.sublist_cons_self _ _
      · simp only [eraseFirst, if_neg h]
        exact ih.cons₂ _

theorem mem_setAdd_iff {s : List α} {x y : α} :
    y ∈ setAdd s x ↔ y ∈ s ∨ y = x := by
  by_cases h : x ∈ s
  · simp only [setAdd, if_pos h]
    constructor
    · exact Or.inl
    · rintro (hy | rfl)
      · exact hy
      · exact h
  · simp [setAdd, if_neg h]

theorem mem_setDiscard_iff {s : List α} {x y : α} :
    y ∈ setDiscard s x ↔ y ∈ s ∧ y ≠ x := by
  simp [setDiscard]

theorem agetD_aset_self {γ : Type} (m : List (α × List γ)) (k : α)
    (v : List γ) : agetD (aset m k v) k = v := by
  simp [agetD, alookup_aset_self]

theorem agetD_aset_ne {γ : Type} (m : List (α × List γ)) {k k' : α}
    (v : List γ) (h : k' ≠ k) : agetD (aset m k v) k' = agetD m k' := by
  simp [agetD, alookup_aset_ne m v h]

theorem mem_agetD_indexAdd {m : List (α × List String)} {k k' : α}
    {x y : String} :
    y ∈ agetD (indexAdd m k x) k' ↔
      y ∈ agetD m k' ∨ (y = x ∧ k' = k) := by
  by_cases h : k' = k
  · subst h
    rw [indexAdd, agetD_aset_self, mem_setAdd_iff]
    constructor
    · rintro (hy | rfl)
      · exact Or.inl hy
      · exact Or.inr ⟨rfl, rfl⟩
    · rintro (hy | ⟨rfl, -⟩)
      · exact Or.inl hy
      · exact Or.inr rfl
  · rw [indexAdd, agetD_aset_ne _ _ h]
    constructor
    · exact Or.inl
    · rintro (hy | ⟨-, hk⟩)
      · exact hy
      · exact absurd hk h

theorem mem_agetD_indexDiscard {m : List (α × List String)} {k k' : α}
    {x y : String} :
    y ∈ agetD (indexDiscard m k x) k' ↔
      y ∈ agetD m k' ∧ ¬(y = x ∧ k' = k) := by
  by_cases h : k' = k
  · subst h
    rw [indexDiscard, agetD_aset_self, mem_setDiscard_iff]
    constructor
    · rintro ⟨hy, hne⟩
      exact ⟨hy, fun hc => hne hc.1⟩
    · rintro ⟨hy, hne⟩
      exact ⟨hy, fun hc => hne ⟨hc, rfl⟩⟩
  · rw [indexDiscard, agetD_aset_ne _ _ h]
    constructor
    · intro hy
      exact ⟨hy, fun hc => h hc.2⟩
    · exact And.left

theorem mem_agetD_foldl_indexAdd {caps : List String}
    {m : List (String × List String)} {aid : String} {c : String} {y : String} :
    y ∈ agetD (caps.foldl (fun acc cp => indexAdd acc cp aid) m) c ↔
      y ∈ agetD m c ∨ (y = aid ∧ c ∈ caps) := by
  induction caps generalizing m with
  | nil => simp
  | cons c0 rest ih =>
      simp only [List.foldl_cons]
      rw [ih]
      rw [mem_agetD_indexAdd]
      constructor
      · rintro ((hy | ⟨rfl, rfl⟩) | ⟨rfl, hc⟩)
        · exact Or.inl hy
        · exact Or.inr ⟨rfl, List.mem_cons_self _ _⟩
        · exact Or.inr ⟨rfl, List.mem_cons_of_mem _ hc⟩
      · rintro (hy | ⟨rfl, hc⟩)
        · exact Or.inl (Or.inl hy)
        · rcases List.mem_cons.mp hc with rfl | hc
          · exact Or.inl (Or.inr ⟨rfl, rfl⟩)
          · exact Or.inr ⟨rfl, hc⟩

theorem mem_agetD_foldl_indexDiscard {caps : List String}
    {m : List (String × List String)} {aid : String} {c : String} {y : String} :
    y ∈ agetD (caps.foldl (fun acc cp => indexDiscard acc cp aid) m) c ↔
      y ∈ agetD m c ∧ (y = aid → c ∉ caps) := by
  induction caps generalizing m with
  | nil => simp
  | cons c0 rest ih =>
      simp only [List.foldl_cons]
      rw [ih]
      rw [mem_agetD_indexDiscard]
      constructor
      · rintro ⟨⟨hy, hne⟩, hrest⟩
        refine ⟨hy, ?_⟩
        rintro rfl hc
        rcases List.mem_cons.mp hc with rfl | hc
        · exact hne ⟨rfl, rfl⟩
        · exact hrest rfl hc
      · rintro ⟨hy, himp⟩
        refine ⟨⟨hy, ?_⟩, ?_⟩
        · rintro ⟨rfl, rfl⟩
          exact himp rfl (List.mem_cons_self _ _)
        · rintro rfl hc
          exact himp rfl (List.mem_cons_of_mem _ hc)

end AListLemmas

/-! ### Membership lemmas for the routing pipeline -/

theorem foldl_choice_mem {γ : Type} (f : γ → γ → γ)
    (hf : ∀ acc x, f acc x = acc ∨ f acc x = x) :
    ∀ (l : List γ) (acc : γ), l.foldl f acc = acc ∨ l.foldl f acc ∈ l := by
  intro l
  induction l with
  | nil => intro acc; exact Or.inl rfl
  | cons b bs ih =>
      intro acc
      simp only [List.foldl_cons]
      rcases ih (f acc b) with h | h
      · rcases hf acc b with h2 | h2
        · exact Or.inl (h.trans h2)
        · exact Or.inr (List.mem_cons.mpr (Or.inl (h.trans h2)))
      · exact Or.inr (List.mem_cons_of_mem _ h)

theorem minByActive_mem {l : List AgentInfo} {g : AgentInfo}
    (h : minByActive l = some g) : g ∈ l := by
  match l with
  | [] => simp [minByActive] at h
  | a :: as =>
      simp only [minByActive, Option.some.injEq] at h
      subst h
      rcases foldl_choice_mem (γ := AgentInfo)
        (fun acc x => if x.active_tasks < acc.active_tasks then x else acc)
        (by
          intro acc x
          by_cases hx : x.active_tasks < acc.active_tasks
          · exact Or.inr (if_pos hx)
          · exact Or.inl (if_neg hx)) as a with h | h
      · rw [h]
        exact List.mem_cons_self _ _
      · exact List.mem_cons_of_mem _ h

theorem find_agents_by_capability_mem {r : AgentRegistry} {c : String}
    {a : AgentInfo} (h : a ∈ find_agents_by_capability r c) :
    ∃ k, (k, a) ∈ r.agents ∧ (a.status = .active ∨ a.status = .idle) := by
  simp only [find_agents_by_capability, List.mem_filterMap] at h
  obtain ⟨aid, hmem, hsome⟩ := h
  revert hsome
  cases he : alookup r.agents aid with
  | none =>
      intro hsome
      exact Option.noConfusion hsome
  | some b =>
      intro hsome
      have hsome2 : (if b.status = .active ∨ b.status = .idle
          then some b else none) = some a := hsome
      by_cases hst : b.status = .active ∨ b.status = .idle
      · rw [if_pos hst] at hsome2
        obtain rfl := Option.some.inj hsome2
        exact ⟨aid, alookup_mem he, hst⟩
      · rw [if_neg hst] at hsome2
        exact Option.noConfusion hsome2

theorem get_all_agents_mem {r : AgentRegistry} {a : AgentInfo} {b : Bool}
    (h : a ∈ get_all_agents r b) : ∃ k, (k, a) ∈ r.agents := by
  have hv : a ∈ r.agents.map Prod.snd := by
    by_cases hb : b = true
    · subst hb
      simp only [get_all_agents, if_pos rfl] at h
      exact List.mem_of_mem_filter h
    · have : b = false := by simpa using hb
      subst this
      simpa [get_all_agents] using h
  obtain ⟨p, hp, hp2⟩ := List.mem_map.mp hv
  exact ⟨p.1, by rwa [show (p.1, a) = p from by rw [← hp2]]⟩

theorem find_capable_agents_mem {r : AgentRegistry} {t : Task} {a : AgentInfo}
    (h : a ∈ find_capable_agents r t) : ∃ k, (k, a) ∈ r.agents := by
  by_cases hc : t.required_capabilities = []
  · rw [find_capable_agents, if_pos hc] at h
    exact get_all_agents_mem h
  · rw [find_capable_agents, if_neg hc] at h
    have h2 := List.mem_of_mem_filter h
    have : ∀ (cs : List String) (acc : List AgentInfo),
        a ∈ cs.foldl (fun acc c =>
          let ags := find_agents_by_capability r c
          if acc = [] then ags else acc.filter (fun x => x ∈ ags)) acc →
        a ∈ acc ∨ ∃ c ∈ cs, a ∈ find_agents_by_capability r c := by
      intro cs
      induction cs with
      | nil => intro acc h; exact Or.inl h
      | cons c0 rest ih =>
          intro acc hmem
          simp only [List.foldl_cons] at hmem
          rcases ih _ hmem with hacc | ⟨c1, hc1, hc2⟩
          · by_cases hemp : acc = []
            · rw [if_pos hemp] at hacc
              exact Or.inr ⟨c0, List.mem_cons_self _ _, hacc⟩
            · rw [if_neg hemp] at hacc
              exact Or.inl (List.mem_of_mem_filter hacc)
          · exact Or.inr ⟨c1, List.mem_cons_of_mem _ hc1, hc2⟩
    rcases this _ _ h2 with hacc | ⟨c1, _, hc2⟩
    · simp at hacc
    · obtain ⟨k, hk, _⟩ := find_agents_by_capability_mem hc2
      exact ⟨k, hk⟩

theorem route_least_loaded_mem {r : AgentRegistry} {t : Task} {g : AgentInfo}
    (h : route_least_loaded r t = some g) : ∃ k, (k, g) ∈ r.agents :=
  find_capable_agents_mem (minByActive_mem h)

/-! ### Registry index-consistency invariant -/

/-- Well-formedness of the registry: unique agent keys, and the two
indices agree in both directions with the declared capability lists and
categories of the registered agents. -/
structure RegWF (r : AgentRegistry) : Prop where
  nodupKeys : (keys r.agents).Nodup
  capFwd : ∀ p ∈ r.agents, ∀ c ∈ p.2.capabilities,
    p.1 ∈ agetD r.capabilities_index c
  capBwd : ∀ p ∈ r.agents, ∀ c, p.1 ∈ agetD r.capabilities_index c →
    c ∈ p.2.capabilities
  catFwd : ∀ p ∈ r.agents, p.1 ∈ agetD r.category_index p.2.category
  catBwd : ∀ p ∈ r.agents, ∀ cat, p.1 ∈ agetD r.category_index cat →
    cat = p.2.category
  capReg : ∀ c aid, aid ∈ agetD r.capabilities_index c → aid ∈ keys r.agents
  catReg : ∀ cat aid, aid ∈ agetD r.category_index cat → aid ∈ keys r.agents

theorem applyUpdates_capabilities (a : AgentInfo) (u : AgentUpdates) :
    (applyUpdates a u).capabilities = a.capabilities := rfl

theorem applyUpdates_category (a : AgentInfo) (u : AgentUpdates) :
    (applyUpdates a u).category = a.category := rfl

theorem applyUpdates_agent_id (a : AgentInfo) (u : AgentUpdates) :
    (applyUpdates a u).agent_id = a.agent_id := rfl

theorem update_agent_none {r : AgentRegistry} {aid : String}
    (he : alookup r.agents aid = none) (u : AgentUpdates) :
    update_agent r aid u = (r, none) := by
  simp [update_agent, he]

theorem update_agent_some {r : AgentRegistry} {aid : String} {a : AgentInfo}
    (he : alookup r.agents aid = some a) (u : AgentUpdates) :
    update_agent r aid u =
      ({ r with agents := aset r.agents aid (applyUpdates a u) },
        some (applyUpdates a u)) := by
  simp [update_agent, he]

theorem regWF_update {r : AgentRegistry} (h : RegWF r) (aid : String)
    (u : AgentUpdates) : RegWF (update_agent r aid u).1 := by
  rcases he : alookup r.agents aid with _ | a
  · rw [update_agent_none he]
    exact h
  · have hfst : (update_agent r aid u).1 =
        { r with agents := aset r.agents aid (applyUpdates a u) } := by
      rw [update_agent_some he]
    rw [hfst]
    have hkeys : aid ∈ keys r.agents := mem_keys_of_alookup he
    have hmemA : (aid, a) ∈ r.agents := alookup_mem he
    have hmem := fun {p : String × AgentInfo}
        (hp : p ∈ aset r.agents aid (applyUpdates a u)) =>
      (mem_aset_iff h.nodupKeys).mp hp
    refine ⟨?_, ?_, ?_, ?_, ?_, ?_, ?_⟩
    · show (keys (aset r.agents aid (applyUpdates a u))).Nodup
      rw [keys_aset_of_mem hkeys]
      exact h.nodupKeys
    · intro p hp c hc
      rcases hmem hp with rfl | ⟨hp2, _⟩
      · exact h.capFwd (aid, a) hmemA c hc
      · exact h.capFwd p hp2 c hc
    · intro p hp c hc
      rcases hmem hp with rfl | ⟨hp2, _⟩
      · exact h.capBwd (aid, a) hmemA c hc
      · exact h.capBwd p hp2 c hc
    · intro p hp
      rcases hmem hp with rfl | ⟨hp2, _⟩
      · exact h.catFwd (aid, a) hmemA
      · exact h.catFwd p hp2
    · intro p hp cat hc
      rcases hmem hp with rfl | ⟨hp2, _⟩
      · exact h.catBwd (aid, a) hmemA cat hc
      · exact h.catBwd p hp2 cat hc
    · intro c aid2 hc
      show aid2 ∈ keys (aset r.agents aid (applyUpdates a u))
      rw [keys_aset_of_mem hkeys]
      exact h.capReg c aid2 hc
    · intro cat aid2 hc
      show aid2 ∈ keys (aset r.agents aid (applyUpdates a u))
      rw [keys_aset_of_mem hkeys]
      exact h.catReg cat aid2 hc

theorem exists_alookup_of_mem_keys {α β : Type} [DecidableEq α]
    {m : List (α × β)} {k : α} (h : k ∈ keys m) :
    ∃ v, alookup m k = some v := by
  rcases he : alookup m k with _ | v
  · exact absurd h (alookup_eq_none_iff.mp he)
  · exact ⟨v, rfl⟩

theorem register_agent_fresh {r : AgentRegistry} {aid : String}
    (nm : String) (cat : AgentCategory) (caps : List String) (u : AgentUpdates)
    (he : alookup r.agents aid = none) :
    register_agent r aid nm cat caps u =
      ({ agents := aset r.agents aid (applyUpdates
            { agent_id := aid, name := nm, category := cat
              capabilities := caps, status := .active } u)
         capabilities_index :=
           caps.foldl (fun m c => indexAdd m c aid) r.capabilities_index
         category_index := indexAdd r.category_index cat aid },
        some (applyUpdates
            { agent_id := aid, name := nm, category := cat
              capabilities := caps, status := .active } u)) := by
  simp [register_agent, he]

theorem regWF_register {r : AgentRegistry} (h : RegWF r) (aid nm : String)
    (cat : AgentCategory) (caps : List String) (u : AgentUpdates) :
    RegWF (register_agent r aid nm cat caps u).1 := by
  rcases he : alookup r.agents aid with _ | a
  · rw [register_agent_fresh nm cat caps u he]
    have hnot : aid ∉ keys r.agents := alookup_eq_none_iff.mp he
    set a0 : AgentInfo := applyUpdates
      { agent_id := aid, name := nm, category := cat
        capabilities := caps, status := .active } u with ha0
    have hcaps : a0.capabilities = caps := rfl
    have hcat : a0.category = cat := rfl
    have hkeys : keys (aset r.agents aid a0) = keys r.agents ++ [aid] :=
      keys_aset_of_not_mem hnot a0
    have hmem := fun {p : String × AgentInfo}
        (hp : p ∈ aset r.agents aid a0) => (mem_aset_iff h.nodupKeys).mp hp
    refine ⟨?_, ?_, ?_, ?_, ?_, ?_, ?_⟩
    · show (keys (aset r.agents aid a0)).Nodup
      rw [hkeys]
      simp [List.nodup_append, h.nodupKeys, hnot]
    · intro p hp c hc
      rcases hmem hp with rfl | ⟨hp2, _⟩
      · exact mem_agetD_foldl_indexAdd.mpr (Or.inr ⟨rfl, hc⟩)
      · exact mem_agetD_foldl_indexAdd.mpr (Or.inl (h.capFwd p hp2 c hc))
    · intro p hp c hc
      rcases hmem hp with rfl | ⟨hp2, hne⟩
      · rcases mem_agetD_foldl_indexAdd.mp hc with hold | ⟨-, hcin⟩
        · exact absurd (h.capReg c aid hold) hnot
        · exact hcin
      · rcases mem_agetD_foldl_indexAdd.mp hc with hold | ⟨heq, -⟩
        · exact h.capBwd p hp2 c hold
        · exact absurd heq hne
    · intro p hp
      rcases hmem hp with rfl | ⟨hp2, _⟩
      · exact mem_agetD_indexAdd.mpr (Or.inr ⟨rfl, rfl⟩)
      · exact mem_agetD_indexAdd.mpr (Or.inl (h.catFwd p hp2))
    · intro p hp cat2 hc
      rcases hmem hp with rfl | ⟨hp2, hne⟩
      · rcases mem_agetD_indexAdd.mp hc with hold | ⟨-, hcat2⟩
        · exact absurd (h.catReg cat2 aid hold) hnot
        · exact hcat2
      · rcases mem_agetD_indexAdd.mp hc with hold | ⟨heq, -⟩
        · exact h.catBwd p hp2 cat2 hold
        · exact absurd heq hne
    · intro c aid2 hc
      show aid2 ∈ keys (aset r.agents aid a0)
      rw [hkeys]
      rcases mem_agetD_foldl_indexAdd.mp hc with hold | ⟨rfl, -⟩
      · exact List.mem_append.mpr (Or.inl (h.capReg c aid2 hold))
      · exact List.mem_append.mpr (Or.inr (List.mem_singleton.mpr rfl))
    · intro cat2 aid2 hc
      show aid2 ∈ keys (aset r.agents aid a0)
      rw [hkeys]
      rcases mem_agetD_indexAdd.mp hc with hold | ⟨rfl, -⟩
      · exact List.mem_append.mpr (Or.inl (h.catReg cat2 aid2 hold))
      · exact List.mem_append.mpr (Or.inr (List.mem_singleton.mpr rfl))
  · have hfst : (register_agent r aid nm cat caps u).1 =
        (update_agent r aid { u with status := some .active }).1 := by
      simp [register_agent, he]
    rw [hfst]
    exact regWF_update h aid _

theorem deregister_agent_some {r : AgentRegistry} {aid : String} {a : AgentInfo}
    (he : alookup r.agents aid = some a) :
    deregister_agent r aid =
      ({ agents := aerase r.agents aid
         capabilities_index := a.capabilities.foldl
           (fun m c => indexDiscard m c aid) r.capabilities_index
         category_index := indexDiscard r.category_index a.category aid },
        true) := by
  simp [deregister_agent, he]

theorem regWF_deregister {r : AgentRegistry} (h : RegWF r) (aid : String) :
    RegWF (deregister_agent r aid).1 := by
  rcases he : alookup r.agents aid with _ | a
  · have : (deregister_agent r aid).1 = r := by simp [deregister_agent, he]
    rwa [this]
  · have hfst : (deregister_agent r aid).1 =
        { agents := aerase r.agents aid
          capabilities_index := a.capabilities.foldl
            (fun m c => indexDiscard m c aid) r.capabilities_index
          category_index := indexDiscard r.category_index a.category aid } := by
      rw [deregister_agent_some he]
    rw [hfst]
    have hmemA : (aid, a) ∈ r.agents := alookup_mem he
    have hout : aid ∉ keys (aerase r.agents aid) :=
      alookup_eq_none_iff.mp (alookup_aerase_self h.nodupKeys aid)
    have hpne : ∀ {p : String × AgentInfo}, p ∈ aerase r.agents aid →
        p ∈ r.agents ∧ p.1 ≠ aid := by
      intro p hp
      refine ⟨mem_aerase_sub hp, ?_⟩
      intro hpe
      have hkm : p.1 ∈ keys (aerase r.agents aid) := List.mem_map.mpr ⟨p, hp, rfl⟩
      rw [hpe] at hkm
      exact hout hkm
    refine ⟨?_, ?_, ?_, ?_, ?_, ?_, ?_⟩
    · exact nodup_keys_aerase h.nodupKeys aid
    · intro p hp c hc
      obtain ⟨hp2, hne⟩ := hpne hp
      exact mem_agetD_foldl_indexDiscard.mpr
        ⟨h.capFwd p hp2 c hc, fun hpe => absurd hpe hne⟩
    · intro p hp c hc
      obtain ⟨hp2, _⟩ := hpne hp
      exact h.capBwd p hp2 c (mem_agetD_foldl_indexDiscard.mp hc).1
    · intro p hp
      obtain ⟨hp2, hne⟩ := hpne hp
      exact mem_agetD_indexDiscard.mpr
        ⟨h.catFwd p hp2, fun hpe => absurd hpe.1 hne⟩
    · intro p hp cat hc
      obtain ⟨hp2, _⟩ := hpne hp
      exact h.catBwd p hp2 cat (mem_agetD_indexDiscard.mp hc).1
    · intro c aid2 hc
      obtain ⟨hold, himp⟩ := mem_agetD_foldl_indexDiscard.mp hc
      by_cases hae : aid2 = aid
      · subst hae
        exact absurd (h.capBwd (aid2, a) hmemA c hold) (himp rfl)
      · have h1 := h.capReg c aid2 hold
        obtain ⟨v, hv⟩ := exists_alookup_of_mem_keys h1
        have hv2 : alookup (aerase r.agents aid) aid2 = some v := by
          rw [alookup_aerase_ne _ hae]
          exact hv
        exact mem_keys_of_alookup hv2
    · intro cat aid2 hc
      obtain ⟨hold, hne⟩ := mem_agetD_indexDiscard.mp hc
      by_cases hae : aid2 = aid
      · subst hae
        have := h.catBwd (aid2, a) hmemA cat hold
        exact absurd ⟨rfl, this⟩ hne
      · have h1 := h.catReg cat aid2 hold
        obtain ⟨v, hv⟩ := exists_alookup_of_mem_keys h1
        have hv2 : alookup (aerase r.agents aid) aid2 = some v := by
          rw [alookup_aerase_ne _ hae]
          exact hv
        exact mem_keys_of_alookup hv2

/-- After a successful `deregister_agent`, the id is gone from the agents
map and from every capability and category index entry. -/
theorem deregister_agent_clears {r : AgentRegistry} (h : RegWF r)
    (aid : String) (hok : (deregister_agent r aid).2 = true) :
    aid ∉ keys (deregister_agent r aid).1.agents ∧
    (∀ c, aid ∉ agetD (deregister_agent r aid).1.capabilities_index c) ∧
    (∀ cat, aid ∉ agetD (deregister_agent r aid).1.category_index cat) := by
  rcases he : alookup r.agents aid with _ | a
  · have : (deregister_agent r aid).2 = false := by simp [deregister_agent, he]
    rw [this] at hok
    exact absurd hok (by simp)
  · have hmemA : (aid, a) ∈ r.agents := alookup_mem he
    have hfst : (deregister_agent r aid).1 =
        { agents := aerase r.agents aid
          capabilities_index := a.capabilities.foldl
            (fun m c => indexDiscard m c aid) r.capabilities_index
          category_index := indexDiscard r.category_index a.category aid } := by
      rw [deregister_agent_some he]
    rw [hfst]
    refine ⟨?_, ?_, ?_⟩
    · exact alookup_eq_none_iff.mp (alookup_aerase_self h.nodupKeys aid)
    · intro c hc
      obtain ⟨hold, himp⟩ := mem_agetD_foldl_indexDiscard.mp hc
      exact himp rfl (h.capBwd (aid, a) hmemA c hold)
    · intro cat hc
      obtain ⟨hold, hne⟩ := mem_agetD_indexDiscard.mp hc
      exact hne ⟨rfl, h.catBwd (aid, a) hmemA cat hold⟩

/-- The freshly initialised registry is well-formed. -/
theorem regWF_init : RegWF ({} : AgentRegistry) := by
  refine ⟨?_, ?_, ?_, ?_, ?_, ?_, ?_⟩ <;> simp [keys, agetD, alookup]

/-! ### System-state invariant -/

/-- Invariant of the combined router/registry state: the registry is
well-formed, task keys are unique, every agent's `active_tasks` counter
is non-negative, and a task that has not reached a terminal status has
neither `result` nor `error` set. -/
structure StateWF (s : SysState) : Prop where
  regWF : RegWF s.reg
  tasksNodup : (keys s.tasks).Nodup
  activeNonneg : ∀ p ∈ s.reg.agents, 0 ≤ p.2.active_tasks
  resErr : ∀ p ∈ s.tasks, p.2.status ≠ .completed → p.2.status ≠ .failed →
    p.2.status ≠ .cancelled → p.2.result = none ∧ p.2.error = none

theorem applyUpdates_active (a : AgentInfo) (u : AgentUpdates) :
    (applyUpdates a u).active_tasks = u.active_tasks.getD a.active_tasks := rfl

theorem activeNonneg_update {r : AgentRegistry}
    (h : ∀ p ∈ r.agents, 0 ≤ p.2.active_tasks)
    (hnd : (keys r.agents).Nodup) (aid : String) (u : AgentUpdates)
    (hu : ∀ v, u.active_tasks = some v → 0 ≤ v) :
    ∀ p ∈ (update_agent r aid u).1.agents, 0 ≤ p.2.active_tasks := by
  rcases he : alookup r.agents aid with _ | a
  · rw [update_agent_none he]
    exact h
  · have hfst : (update_agent r aid u).1 =
        { r with agents := aset r.agents aid (applyUpdates a u) } := by
      rw [update_agent_some he]
    rw [hfst]
    intro p hp
    rcases (mem_aset_iff hnd).mp hp with rfl | ⟨hp2, _⟩
    · rw [show ((aid, applyUpdates a u)).2.active_tasks =
          u.active_tasks.getD a.active_tasks from rfl]
      rcases hv : u.active_tasks with _ | v
      · simpa using h (aid, a) (alookup_mem he)
      · simpa using hu v hv
    · exact h p hp2

theorem stateWF_queue {s : SysState} (h : StateWF s) (q : List (Nat × String)) :
    StateWF { s with task_queue := q } :=
  ⟨h.regWF, h.tasksNodup, h.activeNonneg, h.resErr⟩

theorem removeFromAgentTasks_tasks (s : SysState) (aid tid : String) :
    (removeFromAgentTasks s aid tid).1.tasks = s.tasks := by
  rcases he : alookup s.agent_tasks aid with _ | l
  · simp [removeFromAgentTasks, he]
  · by_cases hm : tid ∈ l
    · simp [removeFromAgentTasks, he, hm]
    · simp [removeFromAgentTasks, he, hm]

theorem removeFromAgentTasks_reg (s : SysState) (aid tid : String) :
    (removeFromAgentTasks s aid tid).1.reg = s.reg := by
  rcases he : alookup s.agent_tasks aid with _ | l
  · simp [removeFromAgentTasks, he]
  · by_cases hm : tid ∈ l
    · simp [removeFromAgentTasks, he, hm]
    · simp [removeFromAgentTasks, he, hm]

theorem removeFromAgentTasks_queue (s : SysState) (aid tid : String) :
    (removeFromAgentTasks s aid tid).1.task_queue = s.task_queue := by
  rcases he : alookup s.agent_tasks aid with _ | l
  · simp [removeFromAgentTasks, he]
  · by_cases hm : tid ∈ l
    · simp [removeFromAgentTasks, he, hm]
    · simp [removeFromAgentTasks, he, hm]

theorem stateWF_removeFromAgentTasks {s : SysState} (h : StateWF s)
    (aid tid : String) : StateWF (removeFromAgentTasks s aid tid).1 := by
  refine ⟨?_, ?_, ?_, ?_⟩
  · rw [removeFromAgentTasks_reg]
    exact h.regWF
  · rw [removeFromAgentTasks_tasks]
    exact h.tasksNodup
  · rw [removeFromAgentTasks_reg]
    exact h.activeNonneg
  · rw [removeFromAgentTasks_tasks]
    exact h.resErr

theorem stateWF_assign_task {s : SysState} {tid : String} {g : AgentInfo}
    {now : ℚ} (h : StateWF s) (hg : ∃ k, (k, g) ∈ s.reg.agents)
    (ht : ∀ t, alookup s.tasks tid = some t → t.status = .pending) :
    StateWF (assign_task_to_agent s tid g now) := by
  obtain ⟨k, hk⟩ := hg
  have hga : 0 ≤ g.active_tasks := h.activeNonneg (k, g) hk
  refine ⟨?_, ?_, ?_, ?_⟩
  · exact regWF_update h.regWF _ _
  · show (keys (match alookup s.tasks tid with
      | some t => aset s.tasks tid
          { t with assigned_agent_id := some g.agent_id
                   assigned_at := some now
                   status := .assigned }
      | none => s.tasks)).Nodup
    rcases he : alookup s.tasks tid with _ | t
    · exact h.tasksNodup
    · exact nodup_keys_aset h.tasksNodup _ _
  · refine activeNonneg_update h.activeNonneg h.regWF.nodupKeys _ _ ?_
    intro v hv
    have : v = g.active_tasks + 1 := by
      simpa using hv.symm
    rw [this]
    linarith
  · show ∀ p ∈ (match alookup s.tasks tid with
      | some t => aset s.tasks tid
          { t with assigned_agent_id := some g.agent_id
                   assigned_at := some now
                   status := .assigned }
      | none => s.tasks), p.2.status ≠ .completed → p.2.status ≠ .failed →
        p.2.status ≠ .cancelled → p.2.result = none ∧ p.2.error = none
    rcases he : alookup s.tasks tid with _ | t
    · exact h.resErr
    · intro p hp h1 h2 h3
      rcases (mem_aset_iff h.tasksNodup).mp hp with rfl | ⟨hp2, _⟩
      · have hres := h.resErr (tid, t) (alookup_mem he)
        have hpend := ht t he
        exact hres (by rw [hpend]; intro hc; cases hc)
          (by rw [hpend]; intro hc; cases hc)
          (by rw [hpend]; intro hc; cases hc)
      · exact h.resErr p hp2 h1 h2 h3

theorem stateWF_reg_update {s : SysState} (h : StateWF s) (aid : String)
    (u : AgentUpdates) (hu : ∀ v, u.active_tasks = some v → 0 ≤ v) :
    StateWF { s with reg := (update_agent s.reg aid u).1 } :=
  ⟨regWF_update h.regWF _ _, h.tasksNodup,
   activeNonneg_update h.activeNonneg h.regWF.nodupKeys _ _ hu, h.resErr⟩

theorem stateWF_assignLoop (now : ℚ) :
    ∀ (fuel : Nat) (s : SysState), StateWF s → StateWF (assignLoop now s fuel) := by
  intro fuel
  induction fuel with
  | zero => intro s h; exact h
  | succ n ih =>
      intro s h
      rw [assignLoop]
      rcases hq : popMin s.task_queue with _ | pr
      · exact h
      · obtain ⟨⟨p, tid⟩, rest⟩ := pr
        dsimp only
        rcases he : alookup s.tasks tid with _ | t
        · exact ih _ (stateWF_queue h rest)
        · dsimp only
          by_cases hst : t.status ≠ .pending
          · rw [if_pos hst]
            exact ih _ (stateWF_queue h rest)
          · rw [if_neg hst]
            rcases hr : route_least_loaded s.reg t with _ | g
            · exact stateWF_queue h _
            · dsimp only
              refine ih _ (stateWF_assign_task (stateWF_queue h rest) ?_ ?_)
              · exact route_least_loaded_mem hr
              · intro t' ht'
                rw [show ({ s with task_queue := rest } : SysState).tasks
                    = s.tasks from rfl, he] at ht'
                obtain rfl := Option.some.inj ht'
                simpa using hst

theorem stateWF_submit {s : SysState} (h : StateWF s)
    (tid ttype : String) (prio : Nat) (caps : List String) (data : PyDict)
    (now : ℚ) : StateWF (submit_task s tid ttype prio caps data now) := by
  unfold submit_task assign_pending_tasks
  apply stateWF_assignLoop
  refine ⟨h.regWF, ?_, h.activeNonneg, ?_⟩
  · exact nodup_keys_aset h.tasksNodup _ _
  · intro p hp h1 h2 h3
    rcases (mem_aset_iff h.tasksNodup).mp hp with rfl | ⟨hp2, _⟩
    · exact ⟨rfl, rfl⟩
    · exact h.resErr p hp2 h1 h2 h3

theorem completionUpdates_active (agent : AgentInfo) (success : Bool)
    (rt now : ℚ) : (completionUpdates agent success rt now).active_tasks =
      some (max 0 (agent.active_tasks - 1)) := rfl

theorem stateWF_completeAgentPhase {s1 : SysState} {t : Task} {tid : String}
    {succ : Bool} {now : ℚ} (h : StateWF s1) :
    StateWF (completeAgentPhase s1 t tid succ now).1 := by
  unfold completeAgentPhase
  rcases ha : t.assigned_agent_id with _ | aid
  · exact h
  · dsimp only
    rcases hag : alookup s1.reg.agents aid with _ | agent
    · exact stateWF_removeFromAgentTasks h aid tid
    · dsimp only
      refine stateWF_removeFromAgentTasks ?_ aid tid
      rcases hat : t.assigned_at with _ | assigned
      · dsimp only
        rcases hg2 : alookup s1.reg.agents aid with _ | ag2
        · exact h
        · dsimp only
          by_cases hle : ag2.active_tasks ≤ 1
          · rw [if_pos hle]
            exact stateWF_reg_update h aid _ (by intro v hv; cases hv)
          · rw [if_neg hle]
            exact h
      · dsimp only
        have h2 : StateWF { s1 with reg := (update_agent s1.reg aid
            (completionUpdates agent succ ((now - assigned) * 1000) now)).1 } := by
          refine stateWF_reg_update h aid _ ?_
          intro v hv
          rw [completionUpdates_active] at hv
          obtain rfl := Option.some.inj hv
          exact le_max_left _ _
        rcases hg2 : alookup (update_agent s1.reg aid
            (completionUpdates agent succ ((now - assigned) * 1000) now)).1.agents
            aid with _ | ag2
        · exact h2
        · dsimp only
          by_cases hle : ag2.active_tasks ≤ 1
          · rw [if_pos hle]
            exact stateWF_reg_update h2 aid _ (by intro v hv; cases hv)
          · rw [if_neg hle]
            exact h2

theorem complete_task_none {s : SysState} {tid : String} {res : PyDict}
    {succ : Bool} {now : ℚ} (he : alookup s.tasks tid = none) :
    complete_task s tid res succ now = (s, false) := by
  simp [complete_task, he]

theorem complete_task_some {s : SysState} {tid : String} {res : PyDict}
    {succ : Bool} {now : ℚ} {t : Task} (he : alookup s.tasks tid = some t) :
    complete_task s tid res succ now =
      completeAgentPhase
        { s with
          tasks :=
            aset s.tasks tid
              { t with
                completed_at := some now
                result := some res
                status := if succ then .completed else .failed } }
        t tid succ now := by
  simp [complete_task, he]

theorem completeAgentPhase_tasks (s1 : SysState) (t : Task) (tid : String)
    (succ : Bool) (now : ℚ) :
    (completeAgentPhase s1 t tid succ now).1.tasks = s1.tasks := by
  unfold completeAgentPhase
  rcases t.assigned_agent_id with _ | aid
  · rfl
  · dsimp only
    rcases alookup s1.reg.agents aid with _ | agent
    · exact removeFromAgentTasks_tasks _ _ _
    · dsimp only
      rcases t.assigned_at with _ | assigned
      · dsimp only
        rcases alookup s1.reg.agents aid with _ | ag2
        · exact removeFromAgentTasks_tasks _ _ _
        · dsimp only
          by_cases hle : ag2.active_tasks ≤ 1
          · rw [if_pos hle, removeFromAgentTasks_tasks]
          · rw [if_neg hle, removeFromAgentTasks_tasks]
      · dsimp only
        rcases alookup (update_agent s1.reg aid
            (completionUpdates agent succ ((now - assigned) * 1000) now)).1.agents
            aid with _ | ag2
        · rw [removeFromAgentTasks_tasks]
        · dsimp only
          by_cases hle : ag2.active_tasks ≤ 1
          · rw [if_pos hle, removeFromAgentTasks_tasks]
          · rw [if_neg hle, removeFromAgentTasks_tasks]

theorem completeAgentPhase_queue (s1 : SysState) (t : Task) (tid : String)
    (succ : Bool) (now : ℚ) :
    (completeAgentPhase s1 t tid succ now).1.task_queue = s1.task_queue := by
  unfold completeAgentPhase
  rcases t.assigned_agent_id with _ | aid
  · rfl
  · dsimp only
    rcases alookup s1.reg.agents aid with _ | agent
    · exact removeFromAgentTasks_queue _ _ _
    · dsimp only
      rcases t.assigned_at with _ | assigned
      · dsimp only
        rcases alookup s1.reg.agents aid with _ | ag2
        · exact removeFromAgentTasks_queue _ _ _
        · dsimp only
          by_cases hle : ag2.active_tasks ≤ 1
          · rw [if_pos hle, removeFromAgentTasks_queue]
          · rw [if_neg hle, removeFromAgentTasks_queue]
      · dsimp only
        rcases alookup (update_agent s1.reg aid
            (completionUpdates agent succ ((now - assigned) * 1000) now)).1.agents
            aid with _ | ag2
        · rw [removeFromAgentTasks_queue]
        · dsimp only
          by_cases hle : ag2.active_tasks ≤ 1
          · rw [if_pos hle, removeFromAgentTasks_queue]
          · rw [if_neg hle, removeFromAgentTasks_queue]

theorem stateWF_complete_aux {s : SysState} {tid : String} {res : PyDict}
    {succ : Bool} {now : ℚ} (hreg : RegWF s.reg)
    (hnd : (keys s.tasks).Nodup)
    (hact : ∀ p ∈ s.reg.agents, 0 ≤ p.2.active_tasks)
    (hres : ∀ p ∈ s.tasks, p.1 ≠ tid → p.2.status ≠ .completed →
      p.2.status ≠ .failed → p.2.status ≠ .cancelled →
      p.2.result = none ∧ p.2.error = none) :
    StateWF (complete_task s tid res succ now).1 := by
  rcases he : alookup s.tasks tid with _ | t
  · rw [complete_task_none he]
    refine ⟨hreg, hnd, hact, ?_⟩
    intro p hp h1 h2 h3
    refine hres p hp ?_ h1 h2 h3
    intro hpe
    have hlk : alookup s.tasks tid = some p.2 := by
      rw [← hpe]
      exact alookup_eq_some_of_mem hnd (by rwa [show (p.1, p.2) = p from rfl])
    rw [he] at hlk
    cases hlk
  · rw [complete_task_some he]
    apply stateWF_completeAgentPhase
    refine ⟨hreg, nodup_keys_aset hnd _ _, hact, ?_⟩
    intro p hp hc1 hc2 hc3
    rcases (mem_aset_iff hnd).mp hp with rfl | ⟨hp2, hpne⟩
    · exfalso
      rcases hsu : succ with _ | _
      · exact hc2 (by simp [hsu])
      · exact hc1 (by simp [hsu])
    · exact hres p hp2 hpne hc1 hc2 hc3

theorem stateWF_complete {s : SysState} {tid : String} {res : PyDict}
    {succ : Bool} {now : ℚ} (h : StateWF s) :
    StateWF (complete_task s tid res succ now).1 :=
  stateWF_complete_aux h.regWF h.tasksNodup h.activeNonneg
    (fun p hp _ => h.resErr p hp)

theorem fail_task_none {s : SysState} {tid err : String} {now : ℚ}
    (he : alookup s.tasks tid = none) : fail_task s tid err now = (s, false) := by
  simp [fail_task, he]

theorem fail_task_some {s : SysState} {tid err : String} {now : ℚ} {t : Task}
    (he : alookup s.tasks tid = some t) :
    fail_task s tid err now =
      complete_task { s with tasks := aset s.tasks tid { t with error := some err } }
        tid ⟨[("error", err)]⟩ false now := by
  simp [fail_task, he]

theorem stateWF_fail {s : SysState} {tid err : String} {now : ℚ}
    (h : StateWF s) : StateWF (fail_task s tid err now).1 := by
  rcases he : alookup s.tasks tid with _ | t
  · rw [fail_task_none he]
    exact h
  · rw [fail_task_some he]
    refine stateWF_complete_aux h.regWF (nodup_keys_aset h.tasksNodup _ _)
      h.activeNonneg ?_
    intro p hp hpne h1 h2 h3
    rcases (mem_aset_iff h.tasksNodup).mp hp with rfl | ⟨hp2, _⟩
    · exact absurd rfl hpne
    · exact h.resErr p hp2 h1 h2 h3

theorem stateWF_on_agent_failed {s : SysState} (h : StateWF s) (aid : String) :
    StateWF (on_agent_failed s aid) := by
  rw [on_agent_failed]
  have h1 : StateWF (if aid ≠ "" then
      { s with reg := (update_agent s.reg aid { status := some .error }).1 }
    else s) := by
    by_cases hne : aid ≠ ""
    · rw [if_pos hne]
      exact stateWF_reg_update h aid _ (by intro v hv; cases hv)
    · rw [if_neg hne]
      exact h
  generalize (if aid ≠ "" then
      { s with reg := (update_agent s.reg aid { status := some .error }).1 }
    else s) = s1 at h1 ⊢
  generalize (agetD s1.agent_tasks aid).filter
    (fun tid => (alookup s1.tasks tid).isSome) = tids
  induction tids generalizing s1 with
  | nil => exact h1
  | cons tid rest ih =>
      simp only [List.foldl_cons]
      apply ih
      unfold requeueStep
      rcases he : alookup s1.tasks tid with _ | t
      · exact h1
      · dsimp only
        by_cases hst : t.status = .assigned ∨ t.status = .in_progress
        · rw [if_pos hst]
          refine ⟨h1.regWF, nodup_keys_aset h1.tasksNodup _ _, h1.activeNonneg, ?_⟩
          intro p hp hc1 hc2 hc3
          rcases (mem_aset_iff h1.tasksNodup).mp hp with rfl | ⟨hp2, _⟩
          · have := h1.resErr (tid, t) (alookup_mem he)
            rcases hst with hst | hst <;>
              exact this (by rw [hst]; intro hc; cases hc)
                (by rw [hst]; intro hc; cases hc)
                (by rw [hst]; intro hc; cases hc)
          · exact h1.resErr p hp2 hc1 hc2 hc3
        · rw [if_neg hst]
          exact h1

theorem stateWF_applyOp {s : SysState} (h : StateWF s) (op : Op) :
    StateWF (applyOp s op) := by
  cases op with
  | register aid nm cat caps kw =>
      refine ⟨regWF_register h.regWF aid nm cat caps kw.toUpdates, h.tasksNodup,
        ?_, h.resErr⟩
      show ∀ p ∈ (register_agent s.reg aid nm cat caps kw.toUpdates).1.agents,
        0 ≤ p.2.active_tasks
      rcases he : alookup s.reg.agents aid with _ | a
      · rw [register_agent_fresh nm cat caps kw.toUpdates he]
        intro p hp
        rcases (mem_aset_iff h.regWF.nodupKeys).mp hp with rfl | ⟨hp2, _⟩
        · exact le_refl 0
        · exact h.activeNonneg p hp2
      · have hfst : (register_agent s.reg aid nm cat caps kw.toUpdates).1 =
            (update_agent s.reg aid
              { kw.toUpdates with status := some .active }).1 := by
          simp [register_agent, he]
        rw [hfst]
        refine activeNonneg_update h.activeNonneg h.regWF.nodupKeys _ _ ?_
        intro v hv
        simp [RegisterKwargs.toUpdates] at hv
  | deregister aid =>
      refine ⟨regWF_deregister h.regWF aid, h.tasksNodup, ?_, h.resErr⟩
      intro p hp
      rcases he : alookup s.reg.agents aid with _ | a
      · have : (deregister_agent s.reg aid).1 = s.reg := by
          simp [deregister_agent, he]
        rw [show (applyOp s (.deregister aid)).reg
            = (deregister_agent s.reg aid).1 from rfl, this] at hp
        exact h.activeNonneg p hp
      · have hfst : (deregister_agent s.reg aid).1.agents
            = aerase s.reg.agents aid := by
          rw [deregister_agent_some he]
        rw [show (applyOp s (.deregister aid)).reg.agents
            = (deregister_agent s.reg aid).1.agents from rfl, hfst] at hp
        exact h.activeNonneg p (mem_aerase_sub hp)
  | submit tid ttype prio caps data now =>
      exact stateWF_submit h tid ttype prio caps data now
  | assignTick now => exact stateWF_assignLoop now _ _ h
  | complete tid resv success now => exact stateWF_complete h
  | fail tid err now => exact stateWF_fail h
  | agentFailed aid => exact stateWF_on_agent_failed h aid

theorem stateWF_init : StateWF ({} : SysState) := by
  refine ⟨regWF_init, ?_, ?_, ?_⟩ <;> simp [keys]

theorem stateWF_runOps (ops : List Op) : StateWF (runOps ops) := by
  rw [runOps]
  have : ∀ (l : List Op) (s : SysState), StateWF s → StateWF (l.foldl applyOp s) := by
    intro l
    induction l with
    | nil => intro s h; exact h
    | cons op rest ih => intro s h; exact ih _ (stateWF_applyOp h op)
  exact this ops {} stateWF_init

theorem stateWF_reachable {s : SysState} (h : Reachable s) : StateWF s := by
  obtain ⟨ops, rfl⟩ := h
  exact stateWF_runOps ops

/-- `strLtB` decides the lexicographic order on character lists that
underlies the string order. -/
theorem strLtB_iff : ∀ cs ds : List Char, strLtB cs ds = true ↔ cs < ds := by
  intro cs
  induction cs with
  | nil =>
      intro ds
      cases ds with
      | nil =>
          simp only [strLtB]
          constructor
          · intro hc
            exact Bool.noConfusion hc
          · intro hc
            cases hc
      | cons d ds' =>
          simp only [strLtB]
          constructor
          · intro _
            exact List.Lex.nil
          · intro _
            trivial
  | cons c cs' ih =>
      intro ds
      cases ds with
      | nil =>
          simp only [strLtB]
          constructor
          · intro hc
            exact Bool.noConfusion hc
          · intro hc
            cases hc
      | cons d ds' =>
          simp only [strLtB]
          by_cases h1 : c.val < d.val
          · rw [if_pos h1]
            constructor
            · intro _
              exact List.Lex.rel h1
            · intro _
              trivial
          · rw [if_neg h1]
            by_cases h2 : d.val < c.val
            · rw [if_pos h2]
              constructor
              · intro hc
                exact Bool.noConfusion hc
              · intro hc
                cases hc with
                | cons h3 => exact (Nat.lt_irrefl _ h2).elim
                | rel h3 => exact absurd h3 h1
            · rw [if_neg h2]
              have h1n : ¬ c.val.toNat < d.val.toNat := h1
              have h2n : ¬ d.val.toNat < c.val.toNat := h2
              have hv : c.val.toNat = d.val.toNat := by omega
              have hcd : c = d := Char.eq_of_val_eq (UInt32.ext hv)
              subst hcd
              rw [ih ds']
              constructor
              · intro hlt
                exact List.Lex.cons hlt
              · intro hc
                cases hc with
                | cons h3 => exact h3
                | rel h3 => exact (Nat.lt_irrefl _ h3).elim

/-! ### Behaviour of the failure-recovery requeue loop -/

theorem requeueStep_reg (acc : SysState) (tid : String) :
    (requeueStep acc tid).reg = acc.reg := by
  unfold requeueStep
  rcases alookup acc.tasks tid with _ | t
  · rfl
  · dsimp only
    by_cases hst : t.status = .assigned ∨ t.status = .in_progress
    · rw [if_pos hst]
    · rw [if_neg hst]

theorem requeueStep_agent_tasks (acc : SysState) (tid : String) :
    (requeueStep acc tid).agent_tasks = acc.agent_tasks := by
  unfold requeueStep
  rcases alookup acc.tasks tid with _ | t
  · rfl
  · dsimp only
    by_cases hst : t.status = .assigned ∨ t.status = .in_progress
    · rw [if_pos hst]
    · rw [if_neg hst]

theorem requeueStep_lookup_ne (acc : SysState) {tid tid' : String}
    (h : tid' ≠ tid) :
    alookup (requeueStep acc tid).tasks tid' = alookup acc.tasks tid' := by
  unfold requeueStep
  rcases alookup acc.tasks tid with _ | t
  · rfl
  · dsimp only
    by_cases hst : t.status = .assigned ∨ t.status = .in_progress
    · rw [if_pos hst]
      exact alookup_aset_ne _ _ h
    · rw [if_neg hst]

theorem requeueStep_queue_extends (acc : SysState) (tid : String) :
    ∃ ext, (requeueStep acc tid).task_queue = acc.task_queue ++ ext := by
  unfold requeueStep
  rcases alookup acc.tasks tid with _ | t
  · exact ⟨[], by simp⟩
  · dsimp only
    by_cases hst : t.status = .assigned ∨ t.status = .in_progress
    · rw [if_pos hst]
      exact ⟨[(t.priority, tid)], rfl⟩
    · rw [if_neg hst]
      exact ⟨[], by simp⟩

theorem foldRequeue_reg : ∀ (l : List String) (acc : SysState),
    (l.foldl requeueStep acc).reg = acc.reg := by
  intro l
  induction l with
  | nil => intro acc; rfl
  | cons a rest ih =>
      intro acc
      simp only [List.foldl_cons]
      rw [ih, requeueStep_reg]

theorem foldRequeue_agent_tasks : ∀ (l : List String) (acc : SysState),
    (l.foldl requeueStep acc).agent_tasks = acc.agent_tasks := by
  intro l
  induction l with
  | nil => intro acc; rfl
  | cons a rest ih =>
      intro acc
      simp only [List.foldl_cons]
      rw [ih, requeueStep_agent_tasks]

theorem foldRequeue_lookup_not_mem : ∀ (l : List String) (acc : SysState)
    {tid' : String}, tid' ∉ l →
    alookup (l.foldl requeueStep acc).tasks tid' = alookup acc.tasks tid' := by
  intro l
  induction l with
  | nil => intro acc tid' _; rfl
  | cons a rest ih =>
      intro acc tid' hmem
      simp only [List.foldl_cons]
      have hne : tid' ≠ a := fun hc => hmem (hc ▸ List.mem_cons_self _ _)
      have hrest : tid' ∉ rest := fun hc => hmem (List.mem_cons_of_mem _ hc)
      rw [ih _ hrest, requeueStep_lookup_ne _ hne]

theorem foldRequeue_queue_extends : ∀ (l : List String) (acc : SysState),
    ∃ ext, (l.foldl requeueStep acc).task_queue = acc.task_queue ++ ext := by
  intro l
  induction l with
  | nil => intro acc; exact ⟨[], by simp⟩
  | cons a rest ih =>
      intro acc
      simp only [List.foldl_cons]
      obtain ⟨e1, he1⟩ := requeueStep_queue_extends acc a
      obtain ⟨e2, he2⟩ := ih (requeueStep acc a)
      exact ⟨e1 ++ e2, by rw [he2, he1, List.append_assoc]⟩

theorem foldRequeue_frozen : ∀ (l : List String) (acc : SysState)
    {tid : String} {t : Task}, alookup acc.tasks tid = some t →
    ¬(t.status = .assigned ∨ t.status = .in_progress) →
    alookup (l.foldl requeueStep acc).tasks tid = some t := by
  intro l
  induction l with
  | nil => intro acc tid t he _; exact he
  | cons a rest ih =>
      intro acc tid t he hst
      simp only [List.foldl_cons]
      by_cases hne : tid = a
      · subst hne
        have hstep : requeueStep acc tid = acc := by
          unfold requeueStep
          rw [he]
          dsimp only
          rw [if_neg hst]
        rw [hstep]
        exact ih _ he hst
      · refine ih _ ?_ hst
        rw [requeueStep_lookup_ne _ hne]
        exact he

theorem foldRequeue_reset : ∀ (l : List String) (acc : SysState)
    {tid : String} {t : Task}, tid ∈ l →
    alookup acc.tasks tid = some t →
    (t.status = .assigned ∨ t.status = .in_progress) →
    alookup (l.foldl requeueStep acc).tasks tid =
      some { t with status := .pending, assigned_agent_id := none } ∧
    (t.priority, tid) ∈ (l.foldl requeueStep acc).task_queue := by
  intro l
  induction l with
  | nil => intro acc tid t hmem; simp at hmem
  | cons a rest ih =>
      intro acc tid t hmem he hst
      simp only [List.foldl_cons]
      by_cases hne : tid = a
      · subst hne
        have hstep : requeueStep acc tid =
            { acc with
              tasks := aset acc.tasks tid
                { t with status := .pending, assigned_agent_id := none }
              task_queue := acc.task_queue ++ [(t.priority, tid)] } := by
          unfold requeueStep
          rw [he]
          dsimp only
          rw [if_pos hst]
        rw [hstep]
        have hlk : alookup (aset acc.tasks tid
            { t with status := .pending, assigned_agent_id := none }) tid =
            some { t with status := .pending, assigned_agent_id := none } :=
          alookup_aset_self _ _ _
        constructor
        · exact foldRequeue_frozen rest _ hlk (by intro hc; rcases hc with hc | hc <;> cases hc)
        · obtain ⟨ext, hext⟩ := foldRequeue_queue_extends rest
            { acc with
              tasks := aset acc.tasks tid
                { t with status := .pending, assigned_agent_id := none }
              task_queue := acc.task_queue ++ [(t.priority, tid)] }
          rw [hext]
          refine List.mem_append.mpr (Or.inl ?_)
          exact List.mem_append.mpr (Or.inr (List.mem_singleton.mpr rfl))
      · rcases List.mem_cons.mp hmem with hc | hmem2
        · exact absurd hc hne
        · refine ih _ hmem2 ?_ hst
          rw [requeueStep_lookup_ne _ hne]
          exact he

/-! ### The claims -/

/-- C1 counterexample: after agent `a1` fails once, its task `t` is
reassigned to `b1` but remains in `agent_tasks["a1"]`; a second
`agent.failed` event for `a1` then resets `t` — a task belonging to a
different agent — back to PENDING with a cleared assignee. -/
theorem agent_failed_stale_tracking_counterexample :
    (alookup (runOps failoverOps).tasks "t").map
        (fun x => (x.status, x.assigned_agent_id)) =
      some (.assigned, some "b1") ∧
    "t" ∈ agetD (runOps failoverOps).agent_tasks "a1" ∧
    (alookup (on_agent_failed (runOps failoverOps) "a1").tasks "t").map
        (fun x => (x.status, x.assigned_agent_id)) =
      some (.pending, none) := by
  decide

/-- C1 (amended): the `agent.failed` handler marks agent `a` ERROR and
resets every task in the router's `agent_tasks[a]` tracking list that is
currently ASSIGNED or IN_PROGRESS — the requeue path never prunes that
list, so this can include a task meanwhile reassigned to a different
agent — to PENDING with `assigned_agent_id = None`, re-enqueueing it; a
COMPLETED or FAILED task is never reset, and tasks outside the tracking
list are not modified. -/
theorem on_agent_failed_spec {s : SysState} (aid : String) (ha : aid ≠ "") :
    AgentFailedPost s aid := by
  have hs1 : on_agent_failed s aid =
      ((agetD s.agent_tasks aid).filter
        (fun tid => (alookup s.tasks tid).isSome)).foldl requeueStep
        { s with reg := (update_agent s.reg aid { status := some .error }).1 } := by
    simp only [on_agent_failed, if_pos ha]
  refine ⟨?_, ?_, ?_, ?_, ?_⟩
  · intro g hg
    rw [hs1, foldRequeue_reg]
    show alookup (update_agent s.reg aid { status := some .error }).1.agents aid
      = some { g with status := .error }
    rw [update_agent_some hg]
    exact alookup_aset_self _ _ _
  · intro tid hmem
    rw [hs1, foldRequeue_lookup_not_mem]
    intro hc
    exact hmem (List.mem_of_mem_filter hc)
  · intro tid t hmem he hst
    rw [hs1]
    exact foldRequeue_reset _ _
      (List.mem_filter.mpr ⟨hmem, by rw [he]; rfl⟩) he hst
  · intro tid t he hterm
    rw [hs1]
    refine foldRequeue_frozen _ _ he ?_
    intro hc
    rcases hterm with hterm | hterm <;> rcases hc with hc | hc <;>
      rw [hterm] at hc <;> cases hc
  · rw [hs1, foldRequeue_agent_tasks]

/-- Witness for C1 at the concrete failover scenario state. -/
theorem on_agent_failed_spec_witness :
    ("a1" : String) ≠ "" ∧ AgentFailedPost (runOps failoverOps) "a1" :=
  ⟨by decide, on_agent_failed_spec "a1" (by decide)⟩

theorem strLtB_of_string_lt {s t : String} (h : s < t) :
    strLtB s.data t.data = true :=
  (strLtB_iff _ _).mpr (String.lt_iff_toList_lt.mp h)

/-- C5 counterexample: tasks `"b"` (submitted first) and `"a"`
(submitted second) have equal priority and wait in the queue for the one
capable agent; the assignment tick assigns `"a"` — the later-submitted
task — and leaves `"b"` pending, refuting the first-submitted-first-
assigned claim. -/
theorem tie_break_counterexample :
    (alookup (runOps tieOps).tasks "a").map
        (fun t => (t.status, t.assigned_agent_id)) =
      some (.assigned, some "g") ∧
    (alookup (runOps tieOps).tasks "b").map
        (fun t => (t.status, t.assigned_agent_id)) =
      some (.pending, none) := by
  decide

/-- C5 (amended): the queue orders entries by the tuple
`(priority.value, task_id)`, so among equal-priority PENDING tasks the
one with the lexicographically smaller `task_id` is assigned first,
regardless of submission order: in the two-task scenario where `i2` is
submitted before `i1` and `i1 < i2`, the later-submitted `i1` is
assigned to the agent and `i2` stays pending. -/
theorem tie_break_by_task_id (i1 i2 : String) (p : Nat) (h : i1 < i2) :
    (alookup (runOps (tieScenario i1 i2 p)).tasks i1).map
        (fun t => (t.status, t.assigned_agent_id)) =
      some (.assigned, some "g") ∧
    (alookup (runOps (tieScenario i1 i2 p)).tasks i2).map
        (fun t => (t.status, t.assigned_agent_id)) =
      some (.pending, none) := by
  have hne21 : ¬ i2 = i1 := fun hc => (ne_of_lt h) hc.symm
  have hne12 : ¬ i1 = i2 := ne_of_lt h
  have hlt : strLtB i1.data i2.data = true := strLtB_of_string_lt h
  have hrt1 : route_least_loaded regG (T1 i1 p) = some G0 := rfl
  have h1 : applyOp {} (.submit i2 "t" p ["c"] ⟨[]⟩ 0) =
      { reg := {}, tasks := [(i2, T2 i2 p)], task_queue := [(p, i2)],
        agent_tasks := [] } := by
    simp [applyOp, submit_task, aset, assign_pending_tasks, assignLoop,
      popMin, eraseFirst, alookup, T2, route_least_loaded,
      find_capable_agents, find_agents_by_capability, agetD, minByActive]
  have h2 : applyOp
      { reg := {}, tasks := [(i2, T2 i2 p)], task_queue := [(p, i2)],
        agent_tasks := [] }
      (.submit i1 "t" p ["c"] ⟨[]⟩ 1) =
      { reg := {}, tasks := [(i2, T2 i2 p), (i1, T1 i1 p)],
        task_queue := [(p, i2), (p, i1)], agent_tasks := [] } := by
    simp [applyOp, submit_task, aset, hne21, assign_pending_tasks, assignLoop,
      popMin, entryLT, hlt, eraseFirst, Prod.mk.injEq, alookup, hne12, T1, T2,
      route_least_loaded, find_capable_agents, find_agents_by_capability,
      agetD, minByActive]
  have h3 : applyOp
      { reg := {}, tasks := [(i2, T2 i2 p), (i1, T1 i1 p)],
        task_queue := [(p, i2), (p, i1)], agent_tasks := [] }
      (.register "g" "G" .clinical ["c"] ({} : RegisterKwargs)) =
      { reg := regG, tasks := [(i2, T2 i2 p), (i1, T1 i1 p)],
        task_queue := [(p, i2), (p, i1)], agent_tasks := [] } := rfl
  have h4 : applyOp
      { reg := regG, tasks := [(i2, T2 i2 p), (i1, T1 i1 p)],
        task_queue := [(p, i2), (p, i1)], agent_tasks := [] }
      (.assignTick 2) =
      { reg := regGBusy, tasks := [(i2, T2 i2 p), (i1, T1A i1 p)],
        task_queue := [(p, i2)], agent_tasks := [("g", [i1])] } := by
    simp [applyOp, assign_pending_tasks, assignLoop, popMin, entryLT, hlt,
      eraseFirst, Prod.mk.injEq, alookup, hne12, hne21, T1, T2, T1A,
      hrt1, assign_task_to_agent, aset, agetD, G0, regGBusy,
      route_least_loaded, find_capable_agents, find_agents_by_capability,
      minByActive, update_agent, applyUpdates, regG, register_agent,
      indexAdd, setAdd, isAvailable, get_all_agents]
  have hrun : runOps (tieScenario i1 i2 p) =
      applyOp (applyOp (applyOp (applyOp {} (.submit i2 "t" p ["c"] ⟨[]⟩ 0))
        (.submit i1 "t" p ["c"] ⟨[]⟩ 1))
        (.register "g" "G" .clinical ["c"] ({} : RegisterKwargs)))
        (.assignTick 2) := rfl
  rw [hrun, h1, h2, h3, h4]
  constructor
  · simp [alookup, hne21, T1A, T1]
  · simp [alookup, T2]

/-- Witness for C5: the tie scenario with ids `"a" < "b"`. -/
theorem tie_break_by_task_id_witness :
    ("a" : String) < "b" ∧
    ((alookup (runOps (tieScenario "a" "b" 3)).tasks "a").map
        (fun t => (t.status, t.assigned_agent_id)) =
      some (.assigned, some "g") ∧
    (alookup (runOps (tieScenario "a" "b" 3)).tasks "b").map
        (fun t => (t.status, t.assigned_agent_id)) =
      some (.pending, none)) := by
  have hab : ("a" : String) < "b" :=
    String.lt_iff_toList_lt.mpr ((strLtB_iff _ _).mp (by decide))
  exact ⟨hab, tie_break_by_task_id "a" "b" 3 hab⟩

/-- C2: in every reachable registry state a registered agent's id is a
member of the capability index entry for each capability in its
capabilities list and of exactly one category index entry, and after
`deregister_agent` returns `True` the id is absent from the agents map
and from every capability and category index entry. -/
theorem registry_index_invariant {s : SysState} (h : Reachable s) :
    IndexInvariant s := by
  have hwf := (stateWF_reachable h).regWF
  constructor
  · intro p hp
    exact ⟨hwf.capFwd p hp, hwf.catFwd p hp,
      fun cat hc => hwf.catBwd p hp cat hc⟩
  · intro aid hok
    exact deregister_agent_clears hwf aid hok

/-- Witness for C2: the invariant holds at the concrete reachable state
produced by the failover scenario. -/
theorem registry_index_invariant_witness :
    Reachable (runOps failoverOps) ∧ IndexInvariant (runOps failoverOps) :=
  ⟨⟨failoverOps, rfl⟩, registry_index_invariant ⟨failoverOps, rfl⟩⟩

/-- C10: in every reachable state every registered agent's
`active_tasks` counter is non-negative — registration starts it at 0,
assignment adds 1, and the completion path decrements through
`max(0, active_tasks - 1)`, so no operation sequence can drive it
negative. -/
theorem active_tasks_nonneg {s : SysState} (h : Reachable s) :
    ∀ p ∈ s.reg.agents, 0 ≤ p.2.active_tasks :=
  (stateWF_reachable h).activeNonneg

/-- Witness for C10 at a concrete reachable state. -/
theorem active_tasks_nonneg_witness :
    Reachable (runOps failScenarioOps) ∧
    ∀ p ∈ (runOps failScenarioOps).reg.agents, 0 ≤ p.2.active_tasks :=
  ⟨⟨failScenarioOps, rfl⟩, active_tasks_nonneg ⟨failScenarioOps, rfl⟩⟩

/-- C9: `complete_task` imposes no precondition on the task's current
status: for every task present in the map — whatever its status — the
call sets `completed_at`, overwrites `result` with the supplied value,
sets the status to COMPLETED (success) or FAILED, and leaves the pending
queue untouched, so a task the failure-recovery path reset to PENDING
can be moved to a terminal state while its queue entry remains. -/
theorem complete_task_unconditional {s : SysState} {tid : String} {t : Task}
    (res : PyDict) (succ : Bool) (now : ℚ)
    (he : alookup s.tasks tid = some t) :
    alookup (complete_task s tid res succ now).1.tasks tid =
      some { t with completed_at := some now
                    result := some res
                    status := if succ then .completed else .failed } ∧
    (complete_task s tid res succ now).1.task_queue = s.task_queue := by
  constructor
  · rw [complete_task_some he]
    rw [show (completeAgentPhase
        { s with
          tasks :=
            aset s.tasks tid
              { t with
                completed_at := some now
                result := some res
                status := if succ then .completed else .failed } }
        t tid succ now).1.tasks
      = aset s.tasks tid
          { t with
            completed_at := some now
            result := some res
            status := if succ then .completed else .failed }
      from completeAgentPhase_tasks _ _ _ _ _]
    exact alookup_aset_self _ _ _
  · rw [complete_task_some he]
    rw [show (completeAgentPhase
        { s with
          tasks :=
            aset s.tasks tid
              { t with
                completed_at := some now
                result := some res
                status := if succ then .completed else .failed } }
        t tid succ now).1.task_queue
      = s.task_queue from completeAgentPhase_queue _ _ _ _ _]

/-- Witness for C9: completing the still-queued pending task `t` moves
it straight to COMPLETED and leaves its queue entry in place. -/
theorem complete_task_unconditional_witness :
    alookup (runOps onePendingOps).tasks "t" = some pendingTaskT ∧
    (alookup (complete_task (runOps onePendingOps) "t" ⟨[("k", "v")]⟩
        true 2).1.tasks "t" =
      some { pendingTaskT with completed_at := some 2
                               result := some ⟨[("k", "v")]⟩
                               status := .completed } ∧
    (complete_task (runOps onePendingOps) "t" ⟨[("k", "v")]⟩
        true 2).1.task_queue = (runOps onePendingOps).task_queue) :=
  ⟨by decide, complete_task_unconditional ⟨[("k", "v")]⟩ true 2 (by decide)⟩

/-- C8: registering an agent id that is already present does not raise
and does not create a second entry: the call delegates to
`update_agent`, returns the updated record with status ACTIVE, and the
registry's key list is unchanged. -/
theorem register_agent_idempotent {r : AgentRegistry} {aid : String}
    {a : AgentInfo} (nm : String) (cat : AgentCategory) (caps : List String)
    (u : AgentUpdates) (he : alookup r.agents aid = some a) :
    (register_agent r aid nm cat caps u).2 =
      some (applyUpdates a { u with status := some .active }) ∧
    (applyUpdates a { u with status := some .active }).status = .active ∧
    keys (register_agent r aid nm cat caps u).1.agents = keys r.agents ∧
    alookup (register_agent r aid nm cat caps u).1.agents aid =
      some (applyUpdates a { u with status := some .active }) := by
  have hreg : register_agent r aid nm cat caps u =
      update_agent r aid { u with status := some .active } := by
    simp [register_agent, he]
  rw [hreg, update_agent_some he]
  refine ⟨rfl, rfl, ?_, ?_⟩
  · show keys (aset r.agents aid (applyUpdates a { u with status := some .active }))
      = keys r.agents
    exact keys_aset_of_mem (mem_keys_of_alookup he) _
  · exact alookup_aset_self _ _ _

theorem foldInter_mem {r : AgentRegistry} {a : AgentInfo} :
    ∀ (cs : List String) (acc : List AgentInfo), a ∈ acc →
      (∀ c ∈ cs, a ∈ find_agents_by_capability r c) →
      a ∈ cs.foldl (fun acc c =>
        let ags := find_agents_by_capability r c
        if acc = [] then ags else acc.filter (fun x => x ∈ ags)) acc := by
  intro cs
  induction cs with
  | nil =>
      intro acc ha _
      exact ha
  | cons c0 rest ih =>
      intro acc ha hall
      simp only [List.foldl_cons]
      have hne : acc ≠ [] := by
        intro hc
        rw [hc] at ha
        simp at ha
      refine ih _ ?_ (fun c hc => hall c (List.mem_cons_of_mem _ hc))
      dsimp only
      rw [if_neg hne]
      refine List.mem_filter.mpr ⟨ha, ?_⟩
      simpa using hall c0 (List.mem_cons_self _ _)

/-- C3 counterexample: (i) with required capabilities `["c1","c2"]` and
an agent `x` that has only `c2`, the `c1` intersection step yields the
empty list, so the fold restarts and `x` — not a member of the claimed
intersection, since no agent has `c1` — is selected anyway; (ii) with no
required capabilities the BUSY agent `y` is a candidate, with no
capacity check. -/
theorem find_capable_agents_counterexample :
    ((find_capable_agents regOnlyC2 taskNeedsBoth).map (fun a => a.agent_id)
        = ["x"] ∧
      find_agents_by_capability regOnlyC2 "c1" = []) ∧
    (find_capable_agents regBusy taskNoCaps).map
        (fun a => (a.agent_id, a.status)) = [("y", AgentStatus.busy)] := by
  decide

/-- C3 (amended): with no required capabilities the candidates are all
ACTIVE, IDLE or BUSY agents, with no capacity filter; with required
capabilities every candidate is ACTIVE or IDLE with spare capacity, and
the candidate set contains every available agent lying in the
intersection of `find_agents_by_capability` over all required
capabilities — but, because an empty intermediate intersection restarts
the fold, it can be strictly larger than that intersection. -/
theorem find_capable_agents_spec (r : AgentRegistry) (t : Task) :
    (t.required_capabilities = [] →
      ∀ a, a ∈ find_capable_agents r t ↔
        (a ∈ r.agents.map Prod.snd ∧
          (a.status = .active ∨ a.status = .idle ∨ a.status = .busy))) ∧
    (t.required_capabilities ≠ [] →
      (∀ a ∈ find_capable_agents r t,
        (a.status = .active ∨ a.status = .idle) ∧
        a.active_tasks < a.max_concurrent_tasks) ∧
      (∀ a, (∀ c ∈ t.required_capabilities, a ∈ find_agents_by_capability r c) →
        (a.status = .active ∨ a.status = .idle) →
        a.active_tasks < a.max_concurrent_tasks →
        a ∈ find_capable_agents r t)) := by
  constructor
  · intro hc a
    rw [find_capable_agents, if_pos hc, get_all_agents]
    simp [List.mem_filter]
  · intro hc
    constructor
    · intro a ha
      rw [find_capable_agents, if_neg hc] at ha
      have := List.mem_filter.mp ha
      simpa [isAvailable] using this.2
    · intro a hall hst hcap
      rw [find_capable_agents, if_neg hc]
      rcases hcs : t.required_capabilities with _ | ⟨c0, rest⟩
      · exact absurd hcs hc
      · refine List.mem_filter.mpr ⟨?_, by simp [isAvailable, hst, hcap]⟩
        simp only [List.foldl_cons]
        refine foldInter_mem rest _ ?_
          (fun c hcm => hall c (by rw [hcs]; exact List.mem_cons_of_mem _ hcm))
        dsimp only
        simp only [if_true]
        exact hall c0 (by rw [hcs]; exact List.mem_cons_self _ _)

/-- Witness for C3: the non-empty-capabilities availability filter at
the concrete registry `regOnlyC2`. -/
theorem find_capable_agents_spec_witness :
    taskNeedsBoth.required_capabilities ≠ [] ∧
    (∀ a ∈ find_capable_agents regOnlyC2 taskNeedsBoth,
      (a.status = .active ∨ a.status = .idle) ∧
      a.active_tasks < a.max_concurrent_tasks) := by
  have h := (find_capable_agents_spec regOnlyC2 taskNeedsBoth).2 (by decide)
  exact ⟨by decide, h.1⟩

/-- C4 counterexample: with one recorded completion, one recorded
failure and rate 50, the code recomputes the failure rate as
`(1 * 50) / (1 + 1 + 1) = 50/3`, not the claimed
`((1 + 1) * 50 + 0) / (1 + 1 + 1) = 100/3`. -/
theorem success_rate_formula_counterexample :
    (applyUpdates agentOneOne
        (completionUpdates agentOneOne false 10 5)).success_rate = 50 / 3 ∧
    claimedSuccessRate 1 1 50 false = 100 / 3 ∧
    (applyUpdates agentOneOne
        (completionUpdates agentOneOne false 10 5)).success_rate ≠
      claimedSuccessRate 1 1 50 false := by
  refine ⟨?_, ?_, ?_⟩ <;>
    norm_num [applyUpdates, completionUpdates, agentOneOne, claimedSuccessRate]

/-- C4 (amended): `complete_task`'s metric update increments
`tasks_failed` (resp. `tasks_completed`) by exactly 1, and recomputes
`success_rate` weighting the old rate by `tasks_completed` alone — on
success `(completed * rate + 100) / (completed + 1)`, on failure
`(completed * rate) / (completed + failed + 1)`; under either update the
rate stays within [0, 100]. -/
theorem completion_metrics_spec (a : AgentInfo) (succ : Bool) (rt now : ℚ)
    (h0 : 0 ≤ a.success_rate) (h100 : a.success_rate ≤ 100) :
    ((applyUpdates a (completionUpdates a false rt now)).tasks_failed
        = a.tasks_failed + 1 ∧
      (applyUpdates a (completionUpdates a false rt now)).tasks_completed
        = a.tasks_completed ∧
      (applyUpdates a (completionUpdates a false rt now)).success_rate =
        ((a.tasks_completed : ℚ) * a.success_rate) /
          ((a.tasks_completed : ℚ) + (a.tasks_failed : ℚ) + 1)) ∧
    ((applyUpdates a (completionUpdates a true rt now)).tasks_completed
        = a.tasks_completed + 1 ∧
      (applyUpdates a (completionUpdates a true rt now)).tasks_failed
        = a.tasks_failed ∧
      (applyUpdates a (completionUpdates a true rt now)).success_rate =
        ((a.tasks_completed : ℚ) * a.success_rate + 100) /
          ((a.tasks_completed : ℚ) + 1)) ∧
    0 ≤ (applyUpdates a (completionUpdates a succ rt now)).success_rate ∧
    (applyUpdates a (completionUpdates a succ rt now)).success_rate ≤ 100 := by
  have hc : (0:ℚ) ≤ (a.tasks_completed : ℚ) := Nat.cast_nonneg _
  have hf : (0:ℚ) ≤ (a.tasks_failed : ℚ) := Nat.cast_nonneg _
  have hcr : (a.tasks_completed : ℚ) * a.success_rate
      ≤ (a.tasks_completed : ℚ) * 100 := mul_le_mul_of_nonneg_left h100 hc
  have hcr0 : 0 ≤ (a.tasks_completed : ℚ) * a.success_rate := mul_nonneg hc h0
  have hb1 : 0 ≤ ((a.tasks_completed : ℚ) * a.success_rate) /
      ((a.tasks_completed : ℚ) + (a.tasks_failed : ℚ) + 1) :=
    div_nonneg hcr0 (by positivity)
  have hb2 : ((a.tasks_completed : ℚ) * a.success_rate) /
      ((a.tasks_completed : ℚ) + (a.tasks_failed : ℚ) + 1) ≤ 100 := by
    rw [div_le_iff₀ (by positivity)]
    nlinarith
  have hb3 : 0 ≤ ((a.tasks_completed : ℚ) * a.success_rate + 100) /
      ((a.tasks_completed : ℚ) + 1) := div_nonneg (by linarith) (by positivity)
  have hb4 : ((a.tasks_completed : ℚ) * a.success_rate + 100) /
      ((a.tasks_completed : ℚ) + 1) ≤ 100 := by
    rw [div_le_iff₀ (by positivity)]
    nlinarith
  refine ⟨⟨?_, ?_, ?_⟩, ⟨?_, ?_, ?_⟩, ?_, ?_⟩
  · simp [applyUpdates, completionUpdates]
  · simp [applyUpdates, completionUpdates]
  · simp [applyUpdates, completionUpdates]
  · simp [applyUpdates, completionUpdates]
  · simp [applyUpdates, completionUpdates]
  · simp [applyUpdates, completionUpdates]
  · rcases succ with _ | _
    · simpa [applyUpdates, completionUpdates] using hb1
    · simpa [applyUpdates, completionUpdates] using hb3
  · rcases succ with _ | _
    · simpa [applyUpdates, completionUpdates] using hb2
    · simpa [applyUpdates, completionUpdates] using hb4

/-- Witness for C4 at the concrete agent `agentOneOne`. -/
theorem completion_metrics_spec_witness :
    (0 ≤ agentOneOne.success_rate ∧ agentOneOne.success_rate ≤ 100) ∧
    (0 ≤ (applyUpdates agentOneOne
        (completionUpdates agentOneOne false 10 5)).success_rate ∧
      (applyUpdates agentOneOne
        (completionUpdates agentOneOne false 10 5)).success_rate ≤ 100) := by
  have h := completion_metrics_spec agentOneOne false 10 5
    (by norm_num [agentOneOne]) (by norm_num [agentOneOne])
  exact ⟨⟨by norm_num [agentOneOne], by norm_num [agentOneOne]⟩, h.2.2⟩

/-- C7 counterexample: a task failed through `fail_task` ends with BOTH
a non-null `result` (the `{"error": ...}` dict `complete_task` stores)
and a non-null `error`, so the two fields are not mutually exclusive. -/
theorem fail_task_sets_both_counterexample :
    (alookup (runOps failScenarioOps).tasks "t").map
        (fun x => (x.result, x.error, x.status)) =
      some (some ⟨[("error", "boom")]⟩, some "boom", .failed) := by decide

/-- C7 (amended): in every reachable state a task that has not reached a
terminal status has `result = None` and `error = None`; but the two
fields are not mutually exclusive at terminal states: `fail_task` sets
`error` and then delegates to `complete_task`, which unconditionally
stores the `{"error": error}` dict as `result`, so a task failed through
`fail_task` carries both. -/
theorem result_error_spec {s : SysState} (h : Reachable s) :
    ResultErrorInvariant s ∧ FailTaskPost s := by
  refine ⟨(stateWF_reachable h).resErr, ?_⟩
  intro tid err now t he
  have hlk : alookup (aset s.tasks tid { t with error := some err }) tid
      = some { t with error := some err } := alookup_aset_self _ _ _
  rw [fail_task_some he, complete_task_some hlk, completeAgentPhase_tasks]
  dsimp only
  rw [alookup_aset_self]
  rfl

/-- Witness for C7 at a concrete reachable state. -/
theorem result_error_spec_witness :
    Reachable (runOps onePendingOps) ∧
    ResultErrorInvariant (runOps onePendingOps) ∧
    FailTaskPost (runOps onePendingOps) :=
  ⟨⟨onePendingOps, rfl⟩, result_error_spec ⟨onePendingOps, rfl⟩⟩

/-- C6: `publish` invokes every subscriber registered for the topic at
call time exactly once, in registration order, with the published
message; an exception (an `Except.error` outcome) from one subscriber
does not propagate, does not prevent the other invocations (every
registered callback appears in the call trace regardless of any
outcome), and the message is still appended to the history and the new
message id still returned. -/
theorem publish_delivers_spec (b : MessageBus) (topic : String)
    (payload : PyDict) (sender : Option String) :
    (publish b topic payload sender).2.2.map Prod.fst
        = agetD b.subscribers topic ∧
    (∀ call ∈ (publish b topic payload sender).2.2,
      call.2.1 = publishedMessage b topic payload sender ∧
      call.2.2 = call.1 (publishedMessage b topic payload sender)) ∧
    (publish b topic payload sender).2.1
        = "msg_" ++ toString (b.message_counter + 1) ∧
    (publish b topic payload sender).1.message_counter
        = b.message_counter + 1 ∧
    (b.message_history ≠ [] ∨ b.message_history.length < b.max_history →
      publishedMessage b topic payload sender
        ∈ (publish b topic payload sender).1.message_history) := by
  refine ⟨?_, ?_, rfl, rfl, ?_⟩
  · show ((agetD b.subscribers topic).map
        (fun cb => (cb, publishedMessage b topic payload sender,
          cb (publishedMessage b topic payload sender)))).map Prod.fst
      = agetD b.subscribers topic
    rw [List.map_map]
    exact List.map_id _
  · intro call hcall
    obtain ⟨cb, -, rfl⟩ := List.mem_map.mp hcall
    exact ⟨rfl, rfl⟩
  · intro hpre
    show publishedMessage b topic payload sender ∈
      (if b.max_history <
          (b.message_history ++ [publishedMessage b topic payload sender]).length
        then (b.message_history ++ [publishedMessage b topic payload sender]).drop 1
        else b.message_history ++ [publishedMessage b topic payload sender])
    by_cases hd : b.max_history <
        (b.message_history ++ [publishedMessage b topic payload sender]).length
    · rw [if_pos hd]
      have hne : b.message_history ≠ [] := by
        rcases hpre with hne | hlen
        · exact hne
        · intro hc
          rw [hc] at hd
          simp at hd
          omega
      have h1 : 1 ≤ b.message_history.length := List.length_pos.mpr hne
      rw [List.drop_append_of_le_length h1]
      exact List.mem_append.mpr (Or.inr (List.mem_singleton.mpr rfl))
    · rw [if_neg hd]
      exact List.mem_append.mpr (Or.inr (List.mem_singleton.mpr rfl))

/-- Witness for C6: publishing on a fresh bus returns the first id and
stores the message. -/
theorem publish_delivers_spec_witness :
    (({} : MessageBus).message_history ≠ [] ∨
      ({} : MessageBus).message_history.length < ({} : MessageBus).max_history) ∧
    (publish ({} : MessageBus) "top" ⟨[]⟩ none).2.1
        = "msg_" ++ toString (({} : MessageBus).message_counter + 1) ∧
    publishedMessage ({} : MessageBus) "top" ⟨[]⟩ none
      ∈ (publish ({} : MessageBus) "top" ⟨[]⟩ none).1.message_history := by
  have h := publish_delivers_spec ({} : MessageBus) "top" ⟨[]⟩ none
  exact ⟨Or.inr (by norm_num), h.2.2.1, h.2.2.2.2 (Or.inr (by norm_num))⟩

/-- Witness for C8: re-registering `x` over `regOnlyC2`. -/
theorem register_agent_idempotent_witness :
    alookup regOnlyC2.agents "x" = some agentX ∧
    ((register_agent regOnlyC2 "x" "X2" .emergency ["other"] {}).2 =
      some (applyUpdates agentX { status := some .active }) ∧
    (applyUpdates agentX
      { ({} : AgentUpdates) with status := some .active }).status = .active ∧
    keys (register_agent regOnlyC2 "x" "X2" .emergency ["other"] {}).1.agents =
      keys regOnlyC2.agents ∧
    alookup (register_agent regOnlyC2 "x" "X2" .emergency
        ["other"] {}).1.agents "x" =
      some (applyUpdates agentX { status := some .active })) := by
  have hlk : alookup regOnlyC2.agents "x" = some agentX := by decide
  exact ⟨hlk, register_agent_idempotent "X2" AgentCategory.emergency
    ["other"] ({} : AgentUpdates) hlk⟩

end Orch
